import Mathlib

/-!
A verification development for the Talon error-prevention core
(`talon_api.py`): the context builder `analyze_code_context`, the
line-by-line diagnostic scanner `detect_errors_with_context`, and the
rewrite engine `apply_smart_fixes` / `find_insertion_point`.

The Python code is shallowly embedded over `Str := List Char`.  Python's
regular-expression patterns are embedded as executable character-level
matchers; the relevant character classes (`\w`, `\s`, `str.strip`,
`str.isidentifier`) are modelled over their ASCII semantics.  In the
patterns below, `.` does not match a newline; scanning always operates on
the result of splitting the source on newlines, so no line ever contains
a newline and the matchers are written without that exclusion.  Python
list operations `lines[i] = x` / `lines[i:i+1] = xs` / `lines.insert(i, x)`
are modelled by `List.set`, `replaceLineWith` and `pyInsert`; for slice
assignment and `insert`, the translation agrees with Python on all
indices, and `List.set` agrees on all in-range indices (Python raises on
an out-of-range plain index; every index reached from scanner-produced
diagnostics is in range).
-/

namespace TalonApi

/-- Source text and lines are lists of characters. -/
abbrev Str := List Char

/-- ASCII semantics of the regex class `\w`. -/
def isWordChar (c : Char) : Bool := c.isAlphanum || c = '_'

/-- ASCII semantics of the regex class `\s` and of `str.strip`'s whitespace. -/
def pyIsSpace (c : Char) : Bool :=
  c = ' ' || c = '\t' || c = '\n' || c = '\r' || c = '\x0b' || c = '\x0c'

/-- One of the two Python quote characters. -/
def isQuote (c : Char) : Bool := c = '"' || c = '\''

/-- Python `str.strip()` (ASCII whitespace). -/
def pyStrip (s : Str) : Str :=
  ((s.dropWhile pyIsSpace).reverse.dropWhile pyIsSpace).reverse

/-- `get_line_indent` from the source: `len(line) - len(line.lstrip())`. -/
def get_line_indent (line : Str) : Nat := (line.takeWhile pyIsSpace).length

/-- Accumulator for `splitOnChar`; `cur` holds the current segment reversed. -/
def splitOnCharAcc (sep : Char) (cur : Str) : Str → List Str
  | [] => [cur.reverse]
  | c :: cs =>
    if c = sep then cur.reverse :: splitOnCharAcc sep [] cs
    else splitOnCharAcc sep (c :: cur) cs

/-- Python `str.split(sep)` for a one-character separator (keeps empty segments). -/
def splitOnChar (sep : Char) (s : Str) : List Str := splitOnCharAcc sep [] s

/-- Python `code.split('\n')`. -/
def splitNL (s : Str) : List Str := splitOnChar '\n' s

/-- Python `'\n'.join(lines)`. -/
def joinNL : List Str → Str
  | [] => []
  | [l] => l
  | l :: l' :: ls => l ++ '\n' :: joinNL (l' :: ls)

/-- Is `needle` a contiguous substring (Python's `needle in hay`)? -/
def isSubstr (needle : Str) : Str → Bool
  | [] => needle.isEmpty
  | c :: cs => needle.isPrefixOf (c :: cs) || isSubstr needle cs

/-- Python `hay.index(needle)`: index of the first occurrence (callers only
use it when the needle occurs; on a miss this total model returns the
length of the haystack). -/
def strIndexOf (needle : Str) : Str → Nat
  | [] => 0
  | c :: cs => if needle.isPrefixOf (c :: cs) then 0 else strIndexOf needle cs + 1

/-- Maximal runs of `\w` characters, with `cur` the current run reversed. -/
def wordRunsAcc (cur : Str) : Str → List Str
  | [] => if cur.isEmpty then [] else [cur.reverse]
  | c :: cs =>
    if isWordChar c then wordRunsAcc (c :: cur) cs
    else if cur.isEmpty then wordRunsAcc [] cs
    else cur.reverse :: wordRunsAcc [] cs

/-- Maximal runs of `\w` characters in a line. -/
def wordRuns (s : Str) : List Str := wordRunsAcc [] s

/-- `re.findall(r'\b([a-zA-Z_]\w*)\b', line)`: the maximal word runs whose
first character is a letter or underscore (a run led by a digit has no
word boundary before any of its suffixes, so it yields no match). -/
def varRefs (line : Str) : List Str :=
  (wordRuns line).filter (fun r => (r.headD ' ').isAlpha || r.headD ' ' = '_')

/-- Match a literal keyword followed by `\s+`, returning the remainder
after the (maximal) whitespace run.  Used for `import`, `from`, `def`,
`class`, `for`, `in` heads; the keyword's characters and whitespace are
disjoint from what follows, so greedy matching needs no backtracking. -/
def dropKwSpaces (kw : Str) (s : Str) : Option Str :=
  if kw.isPrefixOf s then
    match s.drop kw.length with
    | c :: rest => if pyIsSpace c then some ((c :: rest).dropWhile pyIsSpace) else none
    | [] => none
  else none

/-- `re.match(r'^import\s+(\w+)', s)`: the imported module name. -/
def matchImport (s : Str) : Option Str :=
  match dropKwSpaces ("import".data) s with
  | some r =>
    let m := r.takeWhile isWordChar
    if m.isEmpty then none else some m
  | none => none

/-- `re.match(r'^from\s+(\w+)\s+import\s+(.+)', s)`: module and raw name list. -/
def matchFromImport (s : Str) : Option (Str × Str) :=
  match dropKwSpaces ("from".data) s with
  | none => none
  | some r1 =>
    let m := r1.takeWhile isWordChar
    if m.isEmpty then none
    else
      match r1.drop m.length with
      | c :: rest =>
        if pyIsSpace c then
          match dropKwSpaces ("import".data) ((c :: rest).dropWhile pyIsSpace) with
          | some r4 => if r4.isEmpty then none else some (m, r4)
          | none => none
        else none
      | [] => none

/-- First index at which `needle` occurs as a substring, if any. -/
def findSub (needle : Str) : Str → Option Nat
  | [] => if needle.isEmpty then some 0 else none
  | c :: cs =>
    if needle.isPrefixOf (c :: cs) then some 0
    else (findSub needle cs).map (· + 1)

/-- `re.match(r'^def\s+(\w+)\s*\((.*?)\):', s)`: function name and the raw
parameter text.  The lazy `(.*?)` stops at the first occurrence of `"):"`
after the opening parenthesis. -/
def matchFunc (s : Str) : Option (Str × Str) :=
  match dropKwSpaces ("def".data) s with
  | none => none
  | some r1 =>
    let name := r1.takeWhile isWordChar
    if name.isEmpty then none
    else
      match (r1.drop name.length).dropWhile pyIsSpace with
      | '(' :: r3 =>
        match findSub (")".data ++ ":".data) r3 with
        | some k => some (name, r3.take k)
        | none => none
      | _ => none

/-- `re.match(r'^class\s+(\w+)', s)`: the class name. -/
def matchClass (s : Str) : Option Str :=
  match dropKwSpaces ("class".data) s with
  | some r =>
    let m := r.takeWhile isWordChar
    if m.isEmpty then none else some m
  | none => none

/-- `re.match(r'^for\s+(\w+)\s+in\s+', s)`: the loop variable (note the
required trailing whitespace after `in`). -/
def matchFor (s : Str) : Option Str :=
  match dropKwSpaces ("for".data) s with
  | none => none
  | some r1 =>
    let v := r1.takeWhile isWordChar
    if v.isEmpty then none
    else
      match r1.drop v.length with
      | c :: rest =>
        if pyIsSpace c then
          match dropKwSpaces ("in".data) ((c :: rest).dropWhile pyIsSpace) with
          | some _ => some v
          | none => none
        else none
      | [] => none

/-- `re.match(r'^(\w+)\s*=', s)`: a simple assignment target. -/
def matchAssign (s : Str) : Option Str :=
  let v := s.takeWhile isWordChar
  if v.isEmpty then none
  else
    match (s.drop v.length).dropWhile pyIsSpace with
    | '=' :: _ => some v
    | _ => none

/-- `re.match(r'^([^=]+)=', s)`: the left-hand side before the first `=`. -/
def matchMulti (s : Str) : Option Str :=
  let left := s.takeWhile (fun c => c ≠ '=')
  if left.isEmpty then none
  else
    match s.drop left.length with
    | '=' :: _ => some left
    | _ => none

/-- Python `str.isidentifier()` (ASCII semantics). -/
def isPyIdent (s : Str) : Bool :=
  match s with
  | [] => false
  | c :: cs => (c.isAlpha || c = '_') && cs.all isWordChar

/-- One parameter segment: strip, then drop a default-value suffix after `=`. -/
def processParam (seg : Str) : Str :=
  let p := pyStrip seg
  if '=' ∈ p then pyStrip (p.takeWhile (fun c => c ≠ '=')) else p

/-- The parameter-name list the builder records: comma-split segments,
defaults stripped, empty segments and the literal `self` discarded. -/
def processParams (params : Str) : List Str :=
  ((splitOnChar ',' params).map processParam).filter
    (fun p => !p.isEmpty && p ≠ "self".data)

/-- `re.match(r'^(\s*)import\s+(\w+)', line)` on the unstripped line:
leading-whitespace width and module name. -/
def matchImportLine (line : Str) : Option (Nat × Str) :=
  let ind := line.takeWhile pyIsSpace
  (matchImport (line.drop ind.length)).map (fun m => (ind.length, m))

/-- `re.search(r'(\w+)\.(\w+)', line)`: the leftmost maximal word run that
is immediately followed by `.` and at least one word character, with the
maximal word run after the dot.  `cur` is the current run reversed. -/
def fdmAux (cur : Str) : Str → Option (Str × Str)
  | [] => none
  | c :: cs =>
    if isWordChar c then fdmAux (c :: cur) cs
    else if c = '.' && !cur.isEmpty then
      match cs.takeWhile isWordChar with
      | [] => fdmAux [] cs
      | a :: as_ => some (cur.reverse, a :: as_)
    else fdmAux [] cs

/-- `re.search(r'(\w+)\.(\w+)', line)`. -/
def firstDotMatch (line : Str) : Option (Str × Str) := fdmAux [] line

/-- `re.search(rf'\.{var}\b', line)`: a dot, then the token, then a word
boundary. -/
def dotVarB (v : Str) : Str → Bool
  | [] => false
  | c :: cs =>
    (c = '.' && v.isPrefixOf cs &&
      (match cs.drop v.length with
       | [] => true
       | d :: _ => !isWordChar d)) || dotVarB v cs

/-- `re.match(rf'^(def|class)\s+{var}', stripped)` (no trailing boundary). -/
def defClassVar (v : Str) (stripped : Str) : Bool :=
  (match dropKwSpaces ("def".data) stripped with
   | some r => v.isPrefixOf r
   | none => false) ||
  (match dropKwSpaces ("class".data) stripped with
   | some r => v.isPrefixOf r
   | none => false)

/-- `re.match(rf'^{var}\s*=', stripped)`. -/
def assignVar (v : Str) (stripped : Str) : Bool :=
  v.isPrefixOf stripped &&
    (match (stripped.drop v.length).dropWhile pyIsSpace with
     | '=' :: _ => true
     | _ => false)

/-- `re.match(rf'^for\s+{var}\s+in', stripped)` (no trailing boundary). -/
def forVar (v : Str) (stripped : Str) : Bool :=
  match dropKwSpaces ("for".data) stripped with
  | some r =>
    v.isPrefixOf r &&
      (match r.drop v.length with
       | c :: rest =>
         pyIsSpace c && ("in".data).isPrefixOf ((c :: rest).dropWhile pyIsSpace)
       | [] => false)
  | none => false

/-- Remainder after the first quote character, if any. -/
def afterFirstQuote : Str → Option Str
  | [] => none
  | c :: cs => if isQuote c then some cs else afterFirstQuote cs

/-- Is there an occurrence of `v` followed (at or after its end) by a quote? -/
def findVarQuote (v : Str) : Str → Bool
  | [] => false
  | c :: cs =>
    (v.isPrefixOf (c :: cs) && ((c :: cs).drop v.length).any isQuote) ||
      findVarQuote v cs

/-- `re.search(rf'["\']."++"*{var}."++"*["\']', line)`: some quote, then the
token, then some quote.  Existence is equivalent to: after the first quote
there is an occurrence of the token with a quote at or after its end. -/
def quotedVar (v : Str) (line : Str) : Bool :=
  match afterFirstQuote line with
  | some rest => findVarQuote v rest
  | none => false

/-- `re.search(r'/\s*(\w+|\d+)', line)`: at the leftmost slash followed
(after optional whitespace) by at least one word character, the maximal
word run there. -/
def divSearch : Str → Option Str
  | [] => none
  | c :: cs =>
    if c = '/' then
      match (cs.dropWhile pyIsSpace).takeWhile isWordChar with
      | [] => divSearch cs
      | d :: ds => some (d :: ds)
    else divSearch cs

/-- Try `open\s*\(\s*['"]([^'"]+)['"]` at the start of `s`. -/
def fileSearchAt (s : Str) : Option Str :=
  if ("open".data).isPrefixOf s then
    match (s.drop 4).dropWhile pyIsSpace with
    | '(' :: r2 =>
      match r2.dropWhile pyIsSpace with
      | q :: r4 =>
        if isQuote q then
          let fn := r4.takeWhile (fun c => !isQuote c)
          if fn.isEmpty then none
          else
            match r4.drop fn.length with
            | q2 :: _ => if isQuote q2 then some fn else none
            | [] => none
        else none
      | [] => none
    | _ => none
  else none

/-- `re.search(r'open\s*\(\s*[\'"]([^\'"]+)[\'"]', line)`: leftmost match. -/
def fileSearch : Str → Option Str
  | [] => none
  | c :: cs =>
    match fileSearchAt (c :: cs) with
    | some fn => some fn
    | none => fileSearch cs

/-- `re.match(r'^(def|class)\s+', stripped)` as used by `find_insertion_point`. -/
def isDefClassHead (s : Str) : Bool :=
  (dropKwSpaces ("def".data) s).isSome || (dropKwSpaces ("class".data) s).isSome

/-- The guard `if not stripped or stripped.startswith('#'): continue` shared
by the context builder and the scanner. -/
def skipLineB (line : Str) : Bool :=
  (pyStrip line).isEmpty || (pyStrip line).headD ' ' = '#'

/-- The symbol context built by `analyze_code_context`.  Python sets are
modelled as duplicate-free lists (only membership is ever consulted), and
the two dicts as association lists where a later write is consed on and a
lookup takes the first hit. -/
structure Context where
  defined_vars : List Str := []
  imported_modules : List Str := []
  functions : List Str := []
  classes : List Str := []
  loop_vars : List (Nat × List Str) := []
  function_params : List (Str × List Str) := []
  imports : List (Str × Nat) := []
deriving Repr, DecidableEq

/-- Python `set.add`. -/
def addVar (x : Str) (l : List Str) : List Str := if x ∈ l then l else x :: l

/-- `context['loop_vars'][i].add(v)` with the `if i not in ...` guard. -/
def addLoopVar (i : Nat) (v : Str) : List (Nat × List Str) → List (Nat × List Str)
  | [] => [(i, [v])]
  | (j, vs) :: rest =>
    if j = i then (j, addVar v vs) :: rest else (j, vs) :: addLoopVar i v rest

/-- The import-statement recognizer block of `analyze_code_context`. -/
def applyImportRec (i : Nat) (stripped : Str) (ctx : Context) : Context :=
  match matchImport stripped with
  | some m =>
    { ctx with imported_modules := addVar m ctx.imported_modules,
               imports := (m, i) :: ctx.imports }
  | none => ctx

/-- The from-import recognizer block of `analyze_code_context`. -/
def applyFromImportRec (stripped : Str) (ctx : Context) : Context :=
  match matchFromImport stripped with
  | some (m, rest) =>
    { ctx with imported_modules := addVar m ctx.imported_modules,
               defined_vars :=
                 ((splitOnChar ',' rest).map pyStrip).foldl
                   (fun dv x => addVar x dv) ctx.defined_vars }
  | none => ctx

/-- The function-definition recognizer block of `analyze_code_context`:
the function name goes to `functions` and `defined_vars`; when the raw
parameter text is nonempty, each processed parameter is added to
`defined_vars` (in order, after the name) and the list is recorded in
`function_params`. -/
def applyFuncRec (stripped : Str) (ctx : Context) : Context :=
  match matchFunc stripped with
  | some (name, params) =>
    if params.isEmpty then
      { ctx with functions := addVar name ctx.functions,
                 defined_vars := addVar name ctx.defined_vars }
    else
      { ctx with functions := addVar name ctx.functions,
                 defined_vars := (processParams params).foldl
                   (fun dv x => addVar x dv) (addVar name ctx.defined_vars),
                 function_params := (name, processParams params) :: ctx.function_params }
  | none => ctx

/-- The class-definition recognizer block of `analyze_code_context`. -/
def applyClassRec (stripped : Str) (ctx : Context) : Context :=
  match matchClass stripped with
  | some name =>
    { ctx with classes := addVar name ctx.classes,
               defined_vars := addVar name ctx.defined_vars }
  | none => ctx

/-- The for-loop recognizer block of `analyze_code_context`. -/
def applyForRec (i : Nat) (stripped : Str) (ctx : Context) : Context :=
  match matchFor stripped with
  | some v =>
    { ctx with defined_vars := addVar v ctx.defined_vars,
               loop_vars := addLoopVar i v ctx.loop_vars }
  | none => ctx

/-- The simple-assignment recognizer block of `analyze_code_context`. -/
def applyAssignRec (stripped : Str) (ctx : Context) : Context :=
  match matchAssign stripped with
  | some v => { ctx with defined_vars := addVar v ctx.defined_vars }
  | none => ctx

/-- The tuple-unpacking recognizer block of `analyze_code_context`. -/
def applyMultiRec (stripped : Str) (ctx : Context) : Context :=
  match matchMulti stripped with
  | some left =>
    if ',' ∈ left then
      { ctx with
          defined_vars :=
            ((splitOnChar ',' left).map pyStrip).foldl
              (fun dv v => if !v.isEmpty && isPyIdent v then addVar v dv else dv)
              ctx.defined_vars }
    else ctx
  | none => ctx

/-- One line of the context-building pass: the seven recognizers in source
order (the Python locals `current_indent`, `indent` and `in_function` are
assigned but never consulted, so they are not modelled). -/
def buildLine (ctx : Context) (i : Nat) (line : Str) : Context :=
  if skipLineB line then ctx
  else
    let stripped := pyStrip line
    applyMultiRec stripped (applyAssignRec stripped (applyForRec i stripped
      (applyClassRec stripped (applyFuncRec stripped
        (applyFromImportRec stripped (applyImportRec i stripped ctx))))))

/-- `for i, line in enumerate(lines)` over the builder, from index `n`. -/
def buildGo (ctx : Context) (n : Nat) : List Str → Context
  | [] => ctx
  | l :: ls => buildGo (buildLine ctx n l) (n + 1) ls

/-- `analyze_code_context(code)`. -/
def analyze_code_context (code : Str) : Context :=
  buildGo {} 0 (splitNL code)

/-- The `PYTHON_BUILTINS` set. -/
def PYTHON_BUILTINS : List Str :=
  [("True".data), ("False".data), ("None".data), ("print".data), ("len".data),
   ("str".data), ("int".data), ("float".data), ("bool".data), ("list".data),
   ("dict".data), ("set".data), ("tuple".data), ("range".data), ("sum".data),
   ("min".data), ("max".data), ("abs".data), ("round".data), ("sorted".data),
   ("reversed".data), ("enumerate".data), ("zip".data), ("map".data),
   ("filter".data), ("any".data), ("all".data), ("open".data), ("input".data),
   ("type".data), ("isinstance".data), ("hasattr".data), ("getattr".data),
   ("setattr".data), ("delattr".data), ("callable".data), ("iter".data),
   ("next".data), ("Exception".data), ("ValueError".data), ("TypeError".data),
   ("KeyError".data), ("IndexError".data)]

/-- The modules the unresolved-module detector guesses about. -/
def KNOWN_MODULES : List Str :=
  [("pandas".data), ("numpy".data), ("requests".data), ("matplotlib".data),
   ("seaborn".data), ("scipy".data), ("sklearn".data)]

/-- Fix descriptors (`error['fix']` dicts), dispatched on their `type` tag.
`unknown` stands for any tag outside the five the engine recognizes; the
scanner never produces it, and the engine ignores it. -/
inductive FixK where
  | add_comment (line : Nat) (new_line : Str)
  | wrap_with_check (line : Nat) (var : Str) (original : Str)
  | define_variable (line : Nat) (var : Str)
  | wrap_division (line : Nat) (original : Str)
  | safe_file_open (line : Nat) (filename : Str)
  | unknown (tag : Str)
deriving Repr, DecidableEq

/-- A diagnostic (`error` dict) emitted by the scanner. -/
structure Err where
  type : Str
  message : Str
  line : Nat
  column : Nat
  prevention : Str
  fix : Option FixK
deriving Repr, DecidableEq

/-- The unresolved-module diagnostic for module `module` on line `i`. -/
def mnfRecord (i : Nat) (line : Str) (ind : Nat) (module : Str) : Err :=
  { type := "ModuleNotFoundError".data,
    message := ("Module '".data) ++ module ++ ("' might not be installed".data),
    line := i, column := ind,
    prevention := ("Use 'pip install ".data) ++ module ++ ("'".data),
    fix := some (FixK.add_comment i
      (line ++ ("  # Run: pip install ".data) ++ module)) }

/-- The import-error detector block of `detect_errors_with_context`. -/
def importErrs (i : Nat) (line : Str) : List Err :=
  match matchImportLine line with
  | some (ind, module) =>
    if module ∈ KNOWN_MODULES then [mnfRecord i line ind module] else []
  | none => []

/-- The None-attribute diagnostic for receiver `v` on line `i`. -/
def aeRecord (i : Nat) (line : Str) (v : Str) : Err :=
  { type := "AttributeError".data,
    message := ("'".data) ++ v ++ ("' might be None".data),
    line := i, column := strIndexOf v line,
    prevention := "Check if object is None first".data,
    fix := some (FixK.wrap_with_check i v line) }

/-- The None-attribute-access detector block. -/
def attrErrs (lines : List Str) (i : Nat) (line : Str) : List Err :=
  match firstDotMatch line with
  | some (v, _) =>
    if (lines.take i).any (fun pl => isSubstr (v ++ (" = None".data)) pl) then
      [aeRecord i line v]
    else []
  | none => []

/-- All skip conditions of the undefined-name detector, in source order. -/
def tokSkip (ctx : Context) (line stripped : Str) (v : Str) : Bool :=
  decide (v ∈ ctx.defined_vars) || decide (v ∈ ctx.imported_modules) ||
  decide (v ∈ ctx.functions) || decide (v ∈ ctx.classes) ||
  decide (v ∈ PYTHON_BUILTINS) ||
  dotVarB v line || defClassVar v stripped ||
  assignVar v stripped || forVar v stripped ||
  quotedVar v line

/-- The `for var in var_refs: ... break` loop: the first token that
survives every skip condition. -/
def firstUndef (ctx : Context) (line stripped : Str) : List Str → Option Str
  | [] => none
  | v :: vs =>
    if tokSkip ctx line stripped v then firstUndef ctx line stripped vs
    else some v

/-- The undefined-name diagnostic for token `v` on line `i`. -/
def neRecord (i : Nat) (line : Str) (v : Str) : Err :=
  { type := "NameError".data,
    message := ("'".data) ++ v ++ ("' is not defined".data),
    line := i,
    column := if isSubstr v line then strIndexOf v line else 0,
    prevention := "Define variable before use".data,
    fix := some (FixK.define_variable i v) }

/-- The undefined-name detector block. -/
def undefErrs (ctx : Context) (i : Nat) (line stripped : Str) : List Err :=
  match firstUndef ctx line stripped (varRefs line) with
  | some v => [neRecord i line v]
  | none => []

/-- The division-by-zero diagnostic on line `i`. -/
def zdRecord (i : Nat) (line : Str) : Err :=
  { type := "ZeroDivisionError".data,
    message := "Possible division by zero".data,
    line := i, column := strIndexOf ("/".data) line,
    prevention := "Check divisor before division".data,
    fix := some (FixK.wrap_division i line) }

/-- The division-by-zero detector block. -/
def divErrs (lines : List Str) (i : Nat) (line : Str) : List Err :=
  match divSearch line with
  | some d =>
    if d = "0".data ||
        (lines.take i).any (fun pl => isSubstr (d ++ (" = 0".data)) pl) then
      [zdRecord i line]
    else []
  | none => []

/-- The missing-file diagnostic for filename `fn` on line `i`. -/
def fnfRecord (i : Nat) (line : Str) (fn : Str) : Err :=
  { type := "FileNotFoundError".data,
    message := ("File '".data) ++ fn ++ ("' might not exist".data),
    line := i, column := strIndexOf ("open".data) line,
    prevention := "Check file exists before opening".data,
    fix := some (FixK.safe_file_open i fn) }

/-- The file-operation detector block. -/
def fileErrs (i : Nat) (line : Str) : List Err :=
  match fileSearch line with
  | some fn => [fnfRecord i line fn]
  | none => []

/-- All detectors on one line, in source order. -/
def detectLine (lines : List Str) (ctx : Context) (i : Nat) (line : Str) : List Err :=
  if skipLineB line then []
  else
    importErrs i line ++ attrErrs lines i line ++
    undefErrs ctx i line (pyStrip line) ++ divErrs lines i line ++ fileErrs i line

/-- `for i, line in enumerate(lines)` over the scanner, from index `n`. -/
def detectGo (lines : List Str) (ctx : Context) (n : Nat) : List Str → List Err
  | [] => []
  | l :: ls => detectLine lines ctx n l ++ detectGo lines ctx (n + 1) ls

/-- `detect_errors_with_context(code, context)`. -/
def detect_errors_with_context (code : Str) (ctx : Context) : List Err :=
  detectGo (splitNL code) ctx 0 (splitNL code)

/-- Mutable state of one `apply_smart_fixes` pass: the line buffer and the
two local duplicate-guard sets. -/
structure FixState where
  lines : List Str
  added_imports : List Str
  defined_vars : List Str
deriving Repr, DecidableEq

/-- Python `lines[n:n+1] = new` (replace one line by several; for `n` past
the end this appends, exactly as Python slice assignment does). -/
def replaceLineWith (n : Nat) (new : List Str) (l : List Str) : List Str :=
  l.take n ++ new ++ l.drop (n + 1)

/-- Python `list.insert(n, a)` (an index past the end appends). -/
def pyInsert (a : α) : Nat → List α → List α
  | 0, l => a :: l
  | _ + 1, [] => [a]
  | n + 1, x :: xs => x :: pyInsert a n xs

/-- The upward walk of `find_insertion_point`: examine indices `i - 1`
down to `0`, skipping blank lines, stopping after the first line with
strictly smaller indentation or a same-indentation `def`/`class` head. -/
def fipGo (lines : List Str) (current : Nat) : Nat → Nat
  | 0 => 0
  | j + 1 =>
    let line := lines.getD j []
    if (pyStrip line).isEmpty then fipGo lines current j
    else if get_line_indent line < current then j + 1
    else if get_line_indent line = current && isDefClassHead (pyStrip line) then j + 1
    else fipGo lines current j

/-- `find_insertion_point(lines, error_line)`. -/
def find_insertion_point (lines : List Str) (error_line : Nat) : Nat :=
  fipGo lines (get_line_indent (lines.getD error_line [])) error_line

/-- Dispatch of one diagnostic's fix inside `apply_smart_fixes`
(`line_num = error['line']`; a diagnostic without a fix, or with an
unrecognized fix tag, leaves the state unchanged). -/
def applyFixStep (ctx : Context) (st : FixState) (e : Err) : FixState :=
  match e.fix with
  | none => st
  | some fx =>
    let line_num := e.line
    match fx with
    | FixK.add_comment _ new_line =>
      { st with lines := st.lines.set line_num new_line }
    | FixK.wrap_with_check _ v _ =>
      let ol := st.lines.getD line_num []
      let ind := List.replicate (get_line_indent ol) ' '
      let new_lines :=
        [ind ++ ("if ".data) ++ v ++ (" is not None:".data),
         ind ++ ("    ".data) ++ pyStrip ol,
         ind ++ ("else:".data),
         ind ++ ("    print(f'Error: ".data) ++ v ++ (" is None')".data)]
      { st with lines := replaceLineWith line_num new_lines st.lines }
    | FixK.define_variable _ v =>
      if v ∉ st.defined_vars ∧ v ∉ ctx.defined_vars then
        let ins := find_insertion_point st.lines line_num
        let ind := get_line_indent (st.lines.getD line_num [])
        let def_line :=
          List.replicate ind ' ' ++ v ++ (" = None  # TODO: Initialize this variable".data)
        { st with lines := pyInsert def_line ins st.lines,
                  defined_vars := addVar v st.defined_vars }
      else st
    | FixK.wrap_division _ _ =>
      let ol := st.lines.getD line_num []
      let ind := List.replicate (get_line_indent ol) ' '
      let new_lines :=
        [ind ++ ("try:".data),
         ind ++ ("    ".data) ++ pyStrip ol,
         ind ++ ("except ZeroDivisionError:".data),
         ind ++ ("    result = 0  # Handle division by zero".data)]
      { st with lines := replaceLineWith line_num new_lines st.lines }
    | FixK.safe_file_open _ fn =>
      let st' :=
        if ("os".data) ∉ ctx.imported_modules ∧ ("os".data) ∉ st.added_imports then
          { st with lines := pyInsert ("import os".data) 0 st.lines,
                    added_imports := addVar ("os".data) st.added_imports }
        else st
      let ol := st'.lines.getD line_num []
      let ind := List.replicate (get_line_indent ol) ' '
      let safe_lines :=
        [ind ++ ("if os.path.exists('".data) ++ fn ++ ("'):".data),
         ind ++ ("    ".data) ++ pyStrip ol,
         ind ++ ("else:".data),
         ind ++ ("    print(f'File not found: ".data) ++ fn ++ ("')".data)]
      { st' with lines := replaceLineWith line_num safe_lines st'.lines }
    | FixK.unknown _ => st

/-- One step of the stable descending insertion: place `e` before the
first element whose line is not larger, so equal lines keep their
original relative order. -/
def insertByLineDesc (e : Err) : List Err → List Err
  | [] => [e]
  | x :: xs => if x.line ≤ e.line then e :: x :: xs else x :: insertByLineDesc e xs

/-- `sorted(errors, key=lambda x: x['line'], reverse=True)`: the stable
sort by line, descending (extensionally equal to Python's stable sort). -/
def sortByLineDesc (l : List Err) : List Err := l.foldr insertByLineDesc []

/-- `apply_smart_fixes(code, errors, context)`. -/
def apply_smart_fixes (code : Str) (errors : List Err) (ctx : Context) : Str :=
  let st := (sortByLineDesc errors).foldl (applyFixStep ctx)
    { lines := splitNL code, added_imports := [], defined_vars := [] }
  joinNL st.lines

/-! ### Definitions used only to state properties -/

/-- Does the diagnostic carry a fix descriptor with one of the five tags
the rewrite engine dispatches on? -/
def hasKnownFix (e : Err) : Bool :=
  match e.fix with
  | some (FixK.unknown _) => false
  | some _ => true
  | none => false

/-- Membership in any of the four name sets of the context that the
undefined-name detector consults. -/
def inCtxSets (ctx : Context) (x : Str) : Prop :=
  x ∈ ctx.defined_vars ∨ x ∈ ctx.imported_modules ∨
  x ∈ ctx.functions ∨ x ∈ ctx.classes

/-- The binder categories named by the claim about undefined-name
diagnostics, read off the context builder's recognizers: the (non-blank,
non-comment) line textually assigns `x` (`x = ...` at line start), imports
it (as a module or a from-import name), or binds it as a loop variable, a
parameter (the literal `self` excluded, as the builder does), a class
name, or a function name. -/
def bindsName (line : Str) (x : Str) : Bool :=
  !skipLineB line &&
    (decide (matchImport (pyStrip line) = some x) ||
     (match matchFromImport (pyStrip line) with
      | some (_, rest) => decide (x ∈ (splitOnChar ',' rest).map pyStrip)
      | none => false) ||
     (match matchFunc (pyStrip line) with
      | some (n, ps) => decide (n = x) || decide (x ∈ processParams ps)
      | none => false) ||
     decide (matchClass (pyStrip line) = some x) ||
     decide (matchFor (pyStrip line) = some x) ||
     decide (matchAssign (pyStrip line) = some x))

/-- The parameter names of a `def` line as the claim's words describe them
(comma-split segments, default values stripped), without the
implementation's exclusion of the literal `self`; stated from the spec's
words only, to compare the claim against the code's behavior. -/
def specParamNames (line : Str) : List Str :=
  match matchFunc (pyStrip line) with
  | some (_, params) =>
    ((splitOnChar ',' params).map processParam).filter (fun p => !p.isEmpty)
  | none => []

/-- Dict lookup in the recorded `function_params` mapping (a later write
shadows an earlier one). -/
def lookupParams (ctx : Context) (f : Str) : Option (List Str) :=
  (ctx.function_params.find? (fun pr => decide (pr.1 = f))).map (fun pr => pr.2)

/-! ### Splitting and joining lines -/

theorem splitOnCharAcc_ne_nil (sep : Char) (cur s : Str) :
    splitOnCharAcc sep cur s ≠ [] := by
  induction s generalizing cur with
  | nil => simp [splitOnCharAcc]
  | cons c cs ih =>
    simp only [splitOnCharAcc]
    split
    · simp
    · exact ih _

theorem joinNL_splitOnCharAcc (s : Str) : ∀ cur : Str,
    joinNL (splitOnCharAcc '\n' cur s) = cur.reverse ++ s := by
  induction s with
  | nil => intro cur; simp [splitOnCharAcc, joinNL]
  | cons c cs ih =>
    intro cur
    simp only [splitOnCharAcc]
    split
    · next h =>
      subst h
      obtain ⟨b, bs, hb⟩ :=
        List.exists_cons_of_ne_nil (splitOnCharAcc_ne_nil '\n' [] cs)
      rw [hb]
      show cur.reverse ++ '\n' :: joinNL (b :: bs) = cur.reverse ++ '\n' :: cs
      rw [← hb, ih]
      simp
    · rw [ih (c :: cur)]
      simp

theorem joinNL_splitNL (s : Str) : joinNL (splitNL s) = s := by
  simpa using joinNL_splitOnCharAcc s []

theorem one_le_length_splitOnCharAcc (sep : Char) (cur s : Str) :
    1 ≤ (splitOnCharAcc sep cur s).length :=
  List.length_pos.mpr (splitOnCharAcc_ne_nil sep cur s)

theorem length_splitOnCharAcc_append (s : Str) : ∀ (cur t : Str),
    (splitOnCharAcc '\n' cur (s ++ '\n' :: t)).length =
      (splitOnCharAcc '\n' cur s).length + (splitNL t).length := by
  induction s with
  | nil =>
    intro cur t
    simp [splitOnCharAcc, splitNL, splitOnChar, Nat.add_comm]
  | cons c cs ih =>
    intro cur t
    simp only [List.cons_append, splitOnCharAcc]
    split
    · rw [List.length_cons, List.length_cons, List.append_eq, ih]
      omega
    · exact ih _ _

theorem length_le_splitNL_joinNL (l : List Str) :
    l.length ≤ (splitNL (joinNL l)).length := by
  induction l with
  | nil => simp
  | cons x xs ih =>
    cases xs with
    | nil =>
      simpa [joinNL] using one_le_length_splitOnCharAcc '\n' [] x
    | cons y ys =>
      show (x :: y :: ys).length ≤ (splitNL (x ++ '\n' :: joinNL (y :: ys))).length
      rw [splitNL, splitOnChar, length_splitOnCharAcc_append]
      have h1 := one_le_length_splitOnCharAcc '\n' ([] : Str) x
      simp only [splitNL, splitOnChar, List.length_cons] at ih h1 ⊢
      omega

/-! ### Rewrite steps never shrink the line buffer -/

theorem length_pyInsert (a : α) : ∀ (n : Nat) (l : List α),
    (pyInsert a n l).length = l.length + 1 := by
  intro n
  induction n with
  | zero => intro l; simp [pyInsert]
  | succ m ih => intro l; cases l <;> simp [pyInsert, ih]

theorem length_le_replaceLineWith (n : Nat) (new l : List Str)
    (h : 1 ≤ new.length) : l.length ≤ (replaceLineWith n new l).length := by
  simp only [replaceLineWith, List.length_append, List.length_take, List.length_drop]
  omega

theorem length_le_applyFixStep (ctx : Context) (st : FixState) (e : Err) :
    st.lines.length ≤ (applyFixStep ctx st e).lines.length := by
  obtain ⟨t, m, ln, col, p, fx⟩ := e
  cases fx with
  | none => simp [applyFixStep]
  | some k =>
    cases k with
    | add_comment a b => simp [applyFixStep]
    | wrap_with_check a b c =>
      simpa [applyFixStep] using
        length_le_replaceLineWith ln _ st.lines (by simp)
    | define_variable a b =>
      simp only [applyFixStep]
      split
      · simp [length_pyInsert]
      · exact Nat.le_refl _
    | wrap_division a b =>
      simpa [applyFixStep] using
        length_le_replaceLineWith ln _ st.lines (by simp)
    | safe_file_open a b =>
      simp only [applyFixStep]
      split
      · refine Nat.le_trans ?_ (length_le_replaceLineWith ln _ _ (by simp))
        simp [length_pyInsert]
      · exact length_le_replaceLineWith ln _ _ (by simp)
    | unknown tag => simp [applyFixStep]

theorem length_le_foldl_applyFixStep (ctx : Context) :
    ∀ (l : List Err) (st : FixState),
      st.lines.length ≤ (l.foldl (applyFixStep ctx) st).lines.length := by
  intro l
  induction l with
  | nil => intro st; exact Nat.le_refl _
  | cons e es ih =>
    intro st
    exact Nat.le_trans (length_le_applyFixStep ctx st e) (ih _)

/-! ### Sorting diagnostics by line, descending -/

theorem mem_insertByLineDesc {x e : Err} : ∀ {l : List Err},
    x ∈ insertByLineDesc e l ↔ x = e ∨ x ∈ l := by
  intro l
  induction l with
  | nil => simp [insertByLineDesc]
  | cons y ys ih =>
    simp only [insertByLineDesc]
    split
    · simp [List.mem_cons]
    · simp only [List.mem_cons, ih]
      tauto

theorem mem_sortByLineDesc {x : Err} : ∀ {l : List Err},
    x ∈ sortByLineDesc l ↔ x ∈ l := by
  intro l
  induction l with
  | nil => simp [sortByLineDesc]
  | cons e es ih =>
    show x ∈ insertByLineDesc e (sortByLineDesc es) ↔ _
    rw [mem_insertByLineDesc, ih]
    simp [List.mem_cons]

theorem insertByLineDesc_front {e : Err} {l : List Err}
    (h : ∀ y ∈ l, y.line ≤ e.line) : insertByLineDesc e l = e :: l := by
  cases l with
  | nil => rfl
  | cons x xs => simp [insertByLineDesc, h x (by simp)]

theorem pairwise_insertByLineDesc {e : Err} : ∀ {l : List Err},
    l.Pairwise (fun a b => b.line ≤ a.line) →
    (insertByLineDesc e l).Pairwise (fun a b => b.line ≤ a.line) := by
  intro l
  induction l with
  | nil => intro _; simp [insertByLineDesc]
  | cons x xs ih =>
    intro h
    cases h with
    | cons hx hxs =>
      simp only [insertByLineDesc]
      split
      · next hle =>
        refine List.Pairwise.cons ?_ (List.Pairwise.cons hx hxs)
        intro y hy
        rcases List.mem_cons.mp hy with rfl | hy'
        · exact hle
        · exact Nat.le_trans (hx y hy') hle
      · next hle =>
        refine List.Pairwise.cons ?_ (ih hxs)
        intro y hy
        rcases mem_insertByLineDesc.mp hy with rfl | hy'
        · omega
        · exact hx y hy'

theorem pairwise_sortByLineDesc : ∀ (l : List Err),
    (sortByLineDesc l).Pairwise (fun a b => b.line ≤ a.line) := by
  intro l
  induction l with
  | nil => constructor
  | cons e es ih => exact pairwise_insertByLineDesc ih

theorem filter_insertByLineDesc (p : Err → Bool) {e : Err} : ∀ {l : List Err},
    l.Pairwise (fun a b => b.line ≤ a.line) →
    (insertByLineDesc e l).filter p =
      if p e then insertByLineDesc e (l.filter p) else l.filter p := by
  intro l
  induction l with
  | nil =>
    intro _
    cases hpe : p e <;> simp [insertByLineDesc, List.filter_cons, hpe]
  | cons x xs ih =>
    intro h
    cases h with
    | cons hx hxs =>
      simp only [insertByLineDesc]
      split
      · next hle =>
        cases hpe : p e with
        | true =>
          cases hpx : p x with
          | true =>
            simp [List.filter_cons, hpe, hpx, insertByLineDesc, hle]
          | false =>
            simp only [List.filter_cons, hpe, hpx, if_pos, if_neg, if_true,
              Bool.false_eq_true, ite_false, ite_true]
            rw [insertByLineDesc_front]
            intro y hy
            exact Nat.le_trans (hx y (List.mem_of_mem_filter hy)) hle
        | false =>
          simp [List.filter_cons, hpe]
      · next hle =>
        cases hpx : p x with
        | true =>
          cases hpe : p e with
          | true =>
            simp [List.filter_cons, hpx, hpe, ih hxs, insertByLineDesc, hle]
          | false =>
            simp [List.filter_cons, hpx, hpe, ih hxs]
        | false =>
          cases hpe : p e with
          | true => simp [List.filter_cons, hpx, hpe, ih hxs]
          | false => simp [List.filter_cons, hpx, hpe, ih hxs]

theorem filter_sortByLineDesc (p : Err → Bool) : ∀ (l : List Err),
    (sortByLineDesc l).filter p = sortByLineDesc (l.filter p) := by
  intro l
  induction l with
  | nil => rfl
  | cons e es ih =>
    show (insertByLineDesc e (sortByLineDesc es)).filter p = _
    rw [filter_insertByLineDesc p (pairwise_sortByLineDesc es), ih]
    cases hpe : p e with
    | true =>
      simp only [List.filter_cons, hpe, if_true]
      rfl
    | false =>
      simp only [List.filter_cons, hpe]
      rfl

/-! ### Skipping diagnostics without (recognized) fixes -/

theorem applyFixStep_skip (ctx : Context) (st : FixState) (e : Err)
    (h : hasKnownFix e = false) : applyFixStep ctx st e = st := by
  obtain ⟨t, m, ln, col, p, fx⟩ := e
  cases fx with
  | none => rfl
  | some k =>
    cases k with
    | unknown tag => rfl
    | add_comment a b => simp [hasKnownFix] at h
    | wrap_with_check a b c => simp [hasKnownFix] at h
    | define_variable a b => simp [hasKnownFix] at h
    | wrap_division a b => simp [hasKnownFix] at h
    | safe_file_open a b => simp [hasKnownFix] at h

theorem foldl_applyFixStep_filter (ctx : Context) : ∀ (l : List Err) (st : FixState),
    l.foldl (applyFixStep ctx) st =
      (l.filter hasKnownFix).foldl (applyFixStep ctx) st := by
  intro l
  induction l with
  | nil => intro st; rfl
  | cons e es ih =>
    intro st
    rw [List.foldl_cons, List.filter_cons]
    cases he : hasKnownFix e with
    | true => simp only [if_true]; rw [List.foldl_cons]; exact ih _
    | false =>
      simp only [Bool.false_eq_true, if_false]
      rw [applyFixStep_skip ctx st e he]
      exact ih st

theorem foldl_applyFixStep_all_none (ctx : Context) : ∀ (l : List Err) (st : FixState),
    (∀ e ∈ l, e.fix = none) → l.foldl (applyFixStep ctx) st = st := by
  intro l
  induction l with
  | nil => intro st _; rfl
  | cons e es ih =>
    intro st h
    have he : e.fix = none := h e (by simp)
    have hstep : applyFixStep ctx st e = st := by
      unfold applyFixStep; rw [he]
    rw [List.foldl_cons, hstep]
    exact ih st (fun x hx => h x (by simp [hx]))

/-! ### Replacement fixes leave the lines above their target untouched -/

theorem take_set_self : ∀ (l : List Str) (n : Nat) (a : Str),
    (l.set n a).take n = l.take n := by
  intro l
  induction l with
  | nil => intro n a; simp
  | cons x xs ih =>
    intro n a
    cases n with
    | zero => simp
    | succ m => simp [List.set_cons_succ, List.take_succ_cons, ih]

theorem take_replaceLineWith (n : Nat) (new l : List Str) (h : n ≤ l.length) :
    (replaceLineWith n new l).take n = l.take n := by
  simp only [replaceLineWith]
  rw [List.append_assoc, List.take_append_of_le_length, List.take_take]
  · simp
  · simp [List.length_take]
    omega

/-! ### Claim theorems about the rewrite engine -/

/-- C6: for every input, applying the fixes of the diagnostics produced by
the scanner on that input yields a text with at least as many lines as the
input — no fix kind ever decreases the total line count. -/
theorem C6_line_count_monotone (code : Str) :
    (splitNL code).length ≤
      (splitNL (apply_smart_fixes code
        (detect_errors_with_context code (analyze_code_context code))
        (analyze_code_context code))).length := by
  unfold apply_smart_fixes
  refine Nat.le_trans ?_ (length_le_splitNL_joinNL _)
  exact length_le_foldl_applyFixStep _ _
    { lines := splitNL code, added_imports := [], defined_vars := [] }

/-- C10: if no diagnostic in the list carries a fix descriptor (in
particular if the list is empty), `apply_smart_fixes` returns the input
text unchanged. -/
theorem C10_no_fix_identity (code : Str) (errs : List Err) (ctx : Context)
    (h : ∀ e ∈ errs, e.fix = none) :
    apply_smart_fixes code errs ctx = code := by
  show joinNL ((sortByLineDesc errs).foldl (applyFixStep ctx)
    { lines := splitNL code, added_imports := [], defined_vars := [] }).lines = code
  rw [foldl_applyFixStep_all_none ctx _ _
    (fun e he => h e (mem_sortByLineDesc.mp he))]
  exact joinNL_splitNL code

/-- Witness for C10 at a concrete input with the empty diagnostics list. -/
theorem C10_no_fix_identity_witness :
    apply_smart_fixes ("a\nb".data) [] (analyze_code_context ("a\nb".data)) =
      ("a\nb".data) :=
  C10_no_fix_identity _ _ _ (by simp)

/-- C8: `apply_smart_fixes` never fails on a well-formed diagnostics list:
a diagnostic whose fix descriptor has an unrecognized tag (or no fix at
all) is a no-op on the state, and the result equals applying only the
diagnostics with recognized fixes. -/
theorem C8_unknown_fix_noop :
    (∀ (ctx : Context) (st : FixState) (e : Err), hasKnownFix e = false →
        applyFixStep ctx st e = st) ∧
    (∀ (code : Str) (errs : List Err) (ctx : Context),
        apply_smart_fixes code errs ctx =
          apply_smart_fixes code (errs.filter hasKnownFix) ctx) := by
  constructor
  · exact applyFixStep_skip
  · intro code errs ctx
    show joinNL _ = joinNL _
    rw [foldl_applyFixStep_filter, filter_sortByLineDesc]

/-- Witness for C8: a concrete diagnostic with an unrecognized fix tag is
a no-op, and dropping it from a list does not change the rewritten text. -/
theorem C8_unknown_fix_noop_witness :
    hasKnownFix
      { type := ("FutureError".data), message := [], line := 0, column := 0,
        prevention := [], fix := some (FixK.unknown ("future_fix".data)) } = false ∧
    applyFixStep {} { lines := [("a".data)], added_imports := [], defined_vars := [] }
      { type := ("FutureError".data), message := [], line := 0, column := 0,
        prevention := [], fix := some (FixK.unknown ("future_fix".data)) } =
      { lines := [("a".data)], added_imports := [], defined_vars := [] } :=
  ⟨rfl, C8_unknown_fix_noop.1 _ _ _ rfl⟩

/-- C1 counterexample: on the input `"import pandas\ny = qqq"`, the scanner
flags line 0 (unresolved module, with an append-comment fix for line 0) and
both lines with undefined-name fixes.  The define-variable fix for line 1
inserts a definition at line 0 first (lines are processed in descending
order), which shifts the buffer; the append-comment fix for line 0 then
overwrites the freshly inserted definition line instead of the flagged
`import pandas` line.  The flagged line survives unmodified in the output
and the inserted definition is destroyed, so it is not the case that every
fix is applied to the line originally flagged by its diagnostic. -/
theorem C1_counterexample :
    apply_smart_fixes ("import pandas\ny = qqq".data)
        (detect_errors_with_context ("import pandas\ny = qqq".data)
          (analyze_code_context ("import pandas\ny = qqq".data)))
        (analyze_code_context ("import pandas\ny = qqq".data)) =
      (("import = None  # TODO: Initialize this variable\nimport pandas  # Run: pip install pandas\nimport pandas\ny = qqq").data) ∧
    ("import pandas".data) ∈
      splitNL (apply_smart_fixes ("import pandas\ny = qqq".data)
        (detect_errors_with_context ("import pandas\ny = qqq".data)
          (analyze_code_context ("import pandas\ny = qqq".data)))
        (analyze_code_context ("import pandas\ny = qqq".data))) ∧
    ("qqq = None  # TODO: Initialize this variable".data) ∉
      splitNL (apply_smart_fixes ("import pandas\ny = qqq".data)
        (detect_errors_with_context ("import pandas\ny = qqq".data)
          (analyze_code_context ("import pandas\ny = qqq".data)))
        (analyze_code_context ("import pandas\ny = qqq".data))) := by
  refine ⟨by decide, ?_, ?_⟩ <;> decide

/-- C1 amended: diagnostics are indeed applied in descending order of
their line index, and for the three replacement fix kinds (append-comment,
null-check wrap, division wrap) rewriting an in-range target line leaves
every line above it untouched, so those fixes cannot shift the target of a
pending diagnostic on an earlier line.  (The two inserting fix kinds —
define-variable and the `import os` insertion of safe-file-open — can
insert at or above a pending diagnostic's line, which is what the
counterexample exploits.) -/
theorem C1_amended :
    (∀ errs : List Err,
        (sortByLineDesc errs).Pairwise (fun a b => b.line ≤ a.line)) ∧
    (∀ (ctx : Context) (st : FixState) (e : Err),
        e.line < st.lines.length →
        ((∃ ln s, e.fix = some (FixK.add_comment ln s)) ∨
         (∃ ln v o, e.fix = some (FixK.wrap_with_check ln v o)) ∨
         (∃ ln o, e.fix = some (FixK.wrap_division ln o))) →
        (applyFixStep ctx st e).lines.take e.line = st.lines.take e.line) := by
  constructor
  · exact pairwise_sortByLineDesc
  · intro ctx st e hlt hfix
    obtain ⟨t, m, ln, col, p, fx⟩ := e
    rcases hfix with ⟨a, s, h⟩ | ⟨a, v, o, h⟩ | ⟨a, o, h⟩ <;>
      simp only at h <;> subst h
    · simpa [applyFixStep] using take_set_self st.lines ln _
    · simpa [applyFixStep] using
        take_replaceLineWith ln _ st.lines (Nat.le_of_lt hlt)
    · simpa [applyFixStep] using
        take_replaceLineWith ln _ st.lines (Nat.le_of_lt hlt)

/-! ### Characterizing the scanner's output -/

theorem mnfRecord_type (i : Nat) (line : Str) (ind : Nat) (module : Str) :
    (mnfRecord i line ind module).type = ("ModuleNotFoundError".data) := rfl

theorem aeRecord_type (i : Nat) (line v : Str) :
    (aeRecord i line v).type = ("AttributeError".data) := rfl

theorem neRecord_type (i : Nat) (line v : Str) :
    (neRecord i line v).type = ("NameError".data) := rfl

theorem zdRecord_type (i : Nat) (line : Str) :
    (zdRecord i line).type = ("ZeroDivisionError".data) := rfl

theorem fnfRecord_type (i : Nat) (line fn : Str) :
    (fnfRecord i line fn).type = ("FileNotFoundError".data) := rfl

theorem mem_importErrs {i : Nat} {line : Str} {e : Err} (h : e ∈ importErrs i line) :
    ∃ ind module, matchImportLine line = some (ind, module) ∧
      module ∈ KNOWN_MODULES ∧ e = mnfRecord i line ind module := by
  unfold importErrs at h
  split at h
  · next ind module heq =>
    split at h
    · next hmem =>
      simp only [List.mem_singleton] at h
      exact ⟨ind, module, heq, hmem, h⟩
    · simp at h
  · simp at h

theorem mem_attrErrs {lines : List Str} {i : Nat} {line : Str} {e : Err}
    (h : e ∈ attrErrs lines i line) :
    ∃ v a, firstDotMatch line = some (v, a) ∧
      (lines.take i).any (fun pl => isSubstr (v ++ (" = None".data)) pl) = true ∧
      e = aeRecord i line v := by
  unfold attrErrs at h
  split at h
  · next v a heq =>
    split at h
    · next hany =>
      simp only [List.mem_singleton] at h
      exact ⟨v, a, heq, hany, h⟩
    · simp at h
  · simp at h

theorem mem_undefErrs {ctx : Context} {i : Nat} {line stripped : Str} {e : Err}
    (h : e ∈ undefErrs ctx i line stripped) :
    ∃ v, firstUndef ctx line stripped (varRefs line) = some v ∧
      e = neRecord i line v := by
  unfold undefErrs at h
  split at h
  · next v heq =>
    simp only [List.mem_singleton] at h
    exact ⟨v, heq, h⟩
  · simp at h

theorem mem_divErrs {lines : List Str} {i : Nat} {line : Str} {e : Err}
    (h : e ∈ divErrs lines i line) :
    ∃ d, divSearch line = some d ∧ e = zdRecord i line := by
  unfold divErrs at h
  split at h
  · next d heq =>
    split at h
    · simp only [List.mem_singleton] at h
      exact ⟨d, heq, h⟩
    · simp at h
  · simp at h

theorem mem_fileErrs {i : Nat} {line : Str} {e : Err} (h : e ∈ fileErrs i line) :
    ∃ fn, fileSearch line = some fn ∧ e = fnfRecord i line fn := by
  unfold fileErrs at h
  split at h
  · next fn heq =>
    simp only [List.mem_singleton] at h
    exact ⟨fn, heq, h⟩
  · simp at h

theorem detectLine_cases {lines : List Str} {ctx : Context} {i : Nat} {line : Str}
    {e : Err} (h : e ∈ detectLine lines ctx i line) :
    skipLineB line = false ∧
      (e ∈ importErrs i line ∨ e ∈ attrErrs lines i line ∨
       e ∈ undefErrs ctx i line (pyStrip line) ∨ e ∈ divErrs lines i line ∨
       e ∈ fileErrs i line) := by
  unfold detectLine at h
  split at h
  · simp at h
  · next hskip =>
    refine ⟨by simpa using hskip, ?_⟩
    simp only [List.mem_append] at h
    tauto

theorem detectLine_line_eq {lines : List Str} {ctx : Context} {i : Nat} {line : Str}
    {e : Err} (h : e ∈ detectLine lines ctx i line) : e.line = i := by
  obtain ⟨-, hc⟩ := detectLine_cases h
  rcases hc with h' | h' | h' | h' | h'
  · obtain ⟨ind, module, -, -, rfl⟩ := mem_importErrs h'; rfl
  · obtain ⟨v, a, -, -, rfl⟩ := mem_attrErrs h'; rfl
  · obtain ⟨v, -, rfl⟩ := mem_undefErrs h'; rfl
  · obtain ⟨d, -, rfl⟩ := mem_divErrs h'; rfl
  · obtain ⟨fn, -, rfl⟩ := mem_fileErrs h'; rfl

theorem detectLine_ne_char {lines : List Str} {ctx : Context} {i : Nat} {line : Str}
    {e : Err} (h : e ∈ detectLine lines ctx i line)
    (ht : e.type = ("NameError".data)) :
    skipLineB line = false ∧
      ∃ v, firstUndef ctx line (pyStrip line) (varRefs line) = some v ∧
        e = neRecord i line v := by
  obtain ⟨hskip, hc⟩ := detectLine_cases h
  refine ⟨hskip, ?_⟩
  rcases hc with h' | h' | h' | h' | h'
  · obtain ⟨ind, module, -, -, rfl⟩ := mem_importErrs h'
    rw [mnfRecord_type] at ht
    exact absurd ht (by decide)
  · obtain ⟨v, a, -, -, rfl⟩ := mem_attrErrs h'
    rw [aeRecord_type] at ht
    exact absurd ht (by decide)
  · exact mem_undefErrs h'
  · obtain ⟨d, -, rfl⟩ := mem_divErrs h'
    rw [zdRecord_type] at ht
    exact absurd ht (by decide)
  · obtain ⟨fn, -, rfl⟩ := mem_fileErrs h'
    rw [fnfRecord_type] at ht
    exact absurd ht (by decide)

theorem detectLine_ae_char {lines : List Str} {ctx : Context} {i : Nat} {line : Str}
    {e : Err} (h : e ∈ detectLine lines ctx i line)
    (ht : e.type = ("AttributeError".data)) :
    ∃ v a, firstDotMatch line = some (v, a) ∧
      (lines.take i).any (fun pl => isSubstr (v ++ (" = None".data)) pl) = true ∧
      e = aeRecord i line v := by
  obtain ⟨-, hc⟩ := detectLine_cases h
  rcases hc with h' | h' | h' | h' | h'
  · obtain ⟨ind, module, -, -, rfl⟩ := mem_importErrs h'
    rw [mnfRecord_type] at ht
    exact absurd ht (by decide)
  · exact mem_attrErrs h'
  · obtain ⟨v, -, rfl⟩ := mem_undefErrs h'
    rw [neRecord_type] at ht
    exact absurd ht (by decide)
  · obtain ⟨d, -, rfl⟩ := mem_divErrs h'
    rw [zdRecord_type] at ht
    exact absurd ht (by decide)
  · obtain ⟨fn, -, rfl⟩ := mem_fileErrs h'
    rw [fnfRecord_type] at ht
    exact absurd ht (by decide)

theorem mem_detectGo {lines : List Str} {ctx : Context} {e : Err} :
    ∀ {ls : List Str} {n : Nat},
      e ∈ detectGo lines ctx n ls ↔
        ∃ j l, ls[j]? = some l ∧ e ∈ detectLine lines ctx (n + j) l := by
  intro ls
  induction ls with
  | nil => intro n; simp [detectGo]
  | cons l0 ls' ih =>
    intro n
    simp only [detectGo, List.mem_append]
    constructor
    · rintro (h | h)
      · exact ⟨0, l0, by simp, by simpa using h⟩
      · obtain ⟨j, l, hjl, hmem⟩ := ih.mp h
        refine ⟨j + 1, l, by simpa using hjl, ?_⟩
        have harith : n + 1 + j = n + (j + 1) := by omega
        rwa [harith] at hmem
    · rintro ⟨j, l, hjl, hmem⟩
      cases j with
      | zero =>
        left
        simp only [List.getElem?_cons_zero, Option.some.injEq] at hjl
        subst hjl
        simpa using hmem
      | succ m =>
        right
        refine ih.mpr ⟨m, l, by simpa using hjl, ?_⟩
        have harith : n + (m + 1) = n + 1 + m := by omega
        rwa [harith] at hmem

theorem line_ge_of_mem_detectGo {lines : List Str} {ctx : Context} {e : Err}
    {ls : List Str} {n : Nat} (h : e ∈ detectGo lines ctx n ls) : n ≤ e.line := by
  obtain ⟨j, l, -, hmem⟩ := mem_detectGo.mp h
  have := detectLine_line_eq hmem
  omega

theorem countP_eq_zero_of_types (p : Err → Bool) : ∀ (l : List Err),
    (∀ e ∈ l, p e = false) → l.countP p = 0 := by
  intro l
  induction l with
  | nil => intro _; simp
  | cons x xs ih =>
    intro h
    rw [List.countP_cons, h x (by simp), ih (fun e he => h e (by simp [he]))]
    simp

theorem countP_detectGo_zero (lines : List Str) (ctx : Context) (p : Err → Bool)
    (i : Nat) (hloc : ∀ e, p e = true → e.line = i) (ls : List Str) (n : Nat)
    (hn : i < n) : (detectGo lines ctx n ls).countP p = 0 := by
  refine countP_eq_zero_of_types p _ (fun e he => ?_)
  cases hep : p e with
  | false => rfl
  | true =>
    exfalso
    have h1 := hloc e hep
    have h2 := line_ge_of_mem_detectGo he
    omega

theorem countP_detectGo_le_one (lines : List Str) (ctx : Context) (p : Err → Bool)
    (i : Nat) (hloc : ∀ e, p e = true → e.line = i)
    (hper : ∀ j l, (detectLine lines ctx j l).countP p ≤ 1) :
    ∀ (ls : List Str) (n : Nat), (detectGo lines ctx n ls).countP p ≤ 1 := by
  intro ls
  induction ls with
  | nil => intro n; simp [detectGo]
  | cons l0 ls' ih =>
    intro n
    simp only [detectGo, List.countP_append]
    by_cases hn : n = i
    · subst hn
      have hz := countP_detectGo_zero lines ctx p n hloc ls' (n + 1) (by omega)
      have hb := hper n l0
      omega
    · have hz : (detectLine lines ctx n l0).countP p = 0 := by
        refine countP_eq_zero_of_types p _ (fun e he => ?_)
        cases hep : p e with
        | false => rfl
        | true =>
          exfalso
          have h1 := hloc e hep
          have h2 := detectLine_line_eq he
          omega
      rw [hz]
      simpa using ih (n + 1)

theorem countP_detectLine_ne_le_one (lines : List Str) (ctx : Context)
    (j : Nat) (line : Str) (p : Err → Bool)
    (hp : ∀ e, p e = true → e.type = ("NameError".data)) :
    (detectLine lines ctx j line).countP p ≤ 1 := by
  unfold detectLine
  split
  · simp
  · simp only [List.countP_append]
    have h1 : (importErrs j line).countP p = 0 := by
      refine countP_eq_zero_of_types p _ (fun e he => ?_)
      obtain ⟨ind, module, -, -, rfl⟩ := mem_importErrs he
      cases hep : p (mnfRecord j line ind module) with
      | false => rfl
      | true =>
        exact absurd ((mnfRecord_type j line ind module).symm.trans (hp _ hep))
          (by decide)
    have h2 : (attrErrs lines j line).countP p = 0 := by
      refine countP_eq_zero_of_types p _ (fun e he => ?_)
      obtain ⟨v, a, -, -, rfl⟩ := mem_attrErrs he
      cases hep : p (aeRecord j line v) with
      | false => rfl
      | true =>
        exact absurd ((aeRecord_type j line v).symm.trans (hp _ hep)) (by decide)
    have h4 : (divErrs lines j line).countP p = 0 := by
      refine countP_eq_zero_of_types p _ (fun e he => ?_)
      obtain ⟨d, -, rfl⟩ := mem_divErrs he
      cases hep : p (zdRecord j line) with
      | false => rfl
      | true =>
        exact absurd ((zdRecord_type j line).symm.trans (hp _ hep)) (by decide)
    have h5 : (fileErrs j line).countP p = 0 := by
      refine countP_eq_zero_of_types p _ (fun e he => ?_)
      obtain ⟨fn, -, rfl⟩ := mem_fileErrs he
      cases hep : p (fnfRecord j line fn) with
      | false => rfl
      | true =>
        exact absurd ((fnfRecord_type j line fn).symm.trans (hp _ hep)) (by decide)
    have h3 : (undefErrs ctx j line (pyStrip line)).countP p ≤ 1 := by
      refine Nat.le_trans (List.countP_le_length p) ?_
      unfold undefErrs
      split <;> simp
    omega

theorem countP_detectLine_ae_le_one (lines : List Str) (ctx : Context)
    (j : Nat) (line : Str) (p : Err → Bool)
    (hp : ∀ e, p e = true → e.type = ("AttributeError".data)) :
    (detectLine lines ctx j line).countP p ≤ 1 := by
  unfold detectLine
  split
  · simp
  · simp only [List.countP_append]
    have h1 : (importErrs j line).countP p = 0 := by
      refine countP_eq_zero_of_types p _ (fun e he => ?_)
      obtain ⟨ind, module, -, -, rfl⟩ := mem_importErrs he
      cases hep : p (mnfRecord j line ind module) with
      | false => rfl
      | true =>
        exact absurd ((mnfRecord_type j line ind module).symm.trans (hp _ hep))
          (by decide)
    have h3 : (undefErrs ctx j line (pyStrip line)).countP p = 0 := by
      refine countP_eq_zero_of_types p _ (fun e he => ?_)
      obtain ⟨v, -, rfl⟩ := mem_undefErrs he
      cases hep : p (neRecord j line v) with
      | false => rfl
      | true =>
        exact absurd ((neRecord_type j line v).symm.trans (hp _ hep)) (by decide)
    have h4 : (divErrs lines j line).countP p = 0 := by
      refine countP_eq_zero_of_types p _ (fun e he => ?_)
      obtain ⟨d, -, rfl⟩ := mem_divErrs he
      cases hep : p (zdRecord j line) with
      | false => rfl
      | true =>
        exact absurd ((zdRecord_type j line).symm.trans (hp _ hep)) (by decide)
    have h5 : (fileErrs j line).countP p = 0 := by
      refine countP_eq_zero_of_types p _ (fun e he => ?_)
      obtain ⟨fn, -, rfl⟩ := mem_fileErrs he
      cases hep : p (fnfRecord j line fn) with
      | false => rfl
      | true =>
        exact absurd ((fnfRecord_type j line fn).symm.trans (hp _ hep)) (by decide)
    have h2 : (attrErrs lines j line).countP p ≤ 1 := by
      refine Nat.le_trans (List.countP_le_length p) ?_
      unfold attrErrs
      split
      · split <;> simp
      · simp
    omega

theorem firstUndef_eq_find (ctx : Context) (line stripped : Str) :
    ∀ ts : List Str, firstUndef ctx line stripped ts =
      ts.find? (fun t => !tokSkip ctx line stripped t) := by
  intro ts
  induction ts with
  | nil => rfl
  | cons v vs ih =>
    cases hv : tokSkip ctx line stripped v with
    | true =>
      rw [List.find?_cons_of_neg _ (by simp [hv])]
      simpa [firstUndef, hv] using ih
    | false =>
      rw [List.find?_cons_of_pos _ (by simp [hv])]
      simp [firstUndef, hv]

theorem firstUndef_skip_false {ctx : Context} {line stripped : Str} :
    ∀ {ts : List Str} {v : Str},
      firstUndef ctx line stripped ts = some v →
      tokSkip ctx line stripped v = false := by
  intro ts
  induction ts with
  | nil => intro v h; simp [firstUndef] at h
  | cons t ts' ih =>
    intro v h
    simp only [firstUndef] at h
    split at h
    · exact ih h
    · next hns =>
      injection h with h
      subst h
      simpa using hns

/-- C5: for every line of every input, the scanner produces at most one
possible-undefined-name diagnostic; a `NameError` diagnostic at line `i`
is exactly the record for the first token of that line surviving all skip
conditions (`List.find?` over the tokens), and conversely when a scanned
line has a surviving token the corresponding diagnostic is produced. -/
theorem C5_one_undef_per_line (code : Str) (ctx : Context) (i : Nat) :
    ((detect_errors_with_context code ctx).countP
        (fun e => decide (e.type = ("NameError".data)) && decide (e.line = i)) ≤ 1) ∧
    (∀ e ∈ detect_errors_with_context code ctx,
        e.type = ("NameError".data) → e.line = i →
        ∃ line v, (splitNL code)[i]? = some line ∧ skipLineB line = false ∧
          (varRefs line).find? (fun t => !tokSkip ctx line (pyStrip line) t) = some v ∧
          e = neRecord i line v) ∧
    (∀ line v, (splitNL code)[i]? = some line → skipLineB line = false →
        (varRefs line).find? (fun t => !tokSkip ctx line (pyStrip line) t) = some v →
        neRecord i line v ∈ detect_errors_with_context code ctx) := by
  refine ⟨?_, ?_, ?_⟩
  · exact countP_detectGo_le_one _ _ _ i
      (fun e hp => by
        simp only [Bool.and_eq_true, decide_eq_true_eq] at hp
        exact hp.2)
      (fun j l => countP_detectLine_ne_le_one _ _ _ _ _
        (fun e hp => by
          simp only [Bool.and_eq_true, decide_eq_true_eq] at hp
          exact hp.1))
      _ 0
  · intro e he ht hl
    obtain ⟨j, l, hjl, hmem⟩ := mem_detectGo.mp he
    rw [Nat.zero_add] at hmem
    obtain ⟨hskip, v, hfu, hrec⟩ := detectLine_ne_char hmem ht
    have hline := detectLine_line_eq hmem
    have hji : j = i := by omega
    subst hji
    refine ⟨l, v, hjl, hskip, ?_, hrec⟩
    rw [← firstUndef_eq_find]
    exact hfu
  · intro line v hl hskip hfind
    show neRecord i line v ∈ detectGo (splitNL code) ctx 0 (splitNL code)
    refine mem_detectGo.mpr ⟨i, line, hl, ?_⟩
    rw [Nat.zero_add]
    unfold detectLine
    rw [if_neg (by simp [hskip])]
    simp only [List.mem_append]
    refine Or.inl (Or.inl (Or.inr ?_))
    unfold undefErrs
    rw [firstUndef_eq_find, hfind]
    simp

/-- Witness for C5 at the input `"aaa bbb"`: both tokens are unresolved
and exactly the diagnostic for the first, `aaa`, is produced. -/
theorem C5_one_undef_per_line_witness :
    ((detect_errors_with_context ("aaa bbb".data)
        (analyze_code_context ("aaa bbb".data))).countP
      (fun e => decide (e.type = ("NameError".data)) && decide (e.line = 0)) ≤ 1) ∧
    neRecord 0 ("aaa bbb".data) ("aaa".data) ∈
      detect_errors_with_context ("aaa bbb".data)
        (analyze_code_context ("aaa bbb".data)) := by
  constructor
  · exact (C5_one_undef_per_line ("aaa bbb".data) _ 0).1
  · exact (C5_one_undef_per_line ("aaa bbb".data)
      (analyze_code_context ("aaa bbb".data)) 0).2.2
      ("aaa bbb".data) ("aaa".data) (by decide) (by decide) (by decide)

/-! ### Substring facts about the dotted-access matcher -/

theorem isPrefixOf_append_self : ∀ (x y : Str), x.isPrefixOf (x ++ y) = true := by
  intro x y
  induction x with
  | nil => simp [List.isPrefixOf]
  | cons c cs ih => simp [List.isPrefixOf, ih]

theorem isSubstr_of_isPrefixOf {v s : Str} (h : v.isPrefixOf s = true) :
    isSubstr v s = true := by
  cases s with
  | nil =>
    cases v with
    | nil => rfl
    | cons c cs => simp [List.isPrefixOf] at h
  | cons c cs => simp [isSubstr, h]

theorem isSubstr_cons {v : Str} (c : Char) {s : Str} (h : isSubstr v s = true) :
    isSubstr v (c :: s) = true := by simp [isSubstr, h]

theorem isSubstr_append_left {v s : Str} : ∀ (pre : Str),
    isSubstr v s = true → isSubstr v (pre ++ s) = true := by
  intro pre h
  induction pre with
  | nil => simpa using h
  | cons c cs ih => simpa [List.cons_append] using isSubstr_cons c ih

theorem fdmAux_isSubstr : ∀ (s cur v a : Str),
    fdmAux cur s = some (v, a) →
    isSubstr (v ++ '.' :: a) (cur.reverse ++ s) = true := by
  intro s
  induction s with
  | nil => intro cur v a h; simp [fdmAux] at h
  | cons c cs ih =>
    intro cur v a h
    unfold fdmAux at h
    split at h
    · have h2 := ih (c :: cur) v a h
      rw [List.reverse_cons, List.append_assoc] at h2
      simpa using h2
    · split at h
      · next hdot =>
        split at h
        · next htw =>
          have h2 := ih [] v a h
          simp only [List.reverse_nil, List.nil_append] at h2
          exact isSubstr_append_left _ (isSubstr_cons c h2)
        · next a0 as0 htw =>
          injection h with h
          injection h with h1 h2
          subst h1
          subst h2
          have hc : c = '.' := by
            simp only [Bool.and_eq_true, decide_eq_true_eq] at hdot
            exact hdot.1
          subst hc
          have hcs : cs.takeWhile isWordChar ++ cs.dropWhile isWordChar = cs :=
            List.takeWhile_append_dropWhile isWordChar cs
          have key : cur.reverse ++ '.' :: cs =
              (cur.reverse ++ '.' :: (a0 :: as0)) ++ cs.dropWhile isWordChar := by
            conv_lhs => rw [← hcs, htw]
            simp
          rw [key]
          exact isSubstr_of_isPrefixOf (isPrefixOf_append_self _ _)
      · have h2 := ih [] v a h
        simp only [List.reverse_nil, List.nil_append] at h2
        exact isSubstr_append_left _ (isSubstr_cons c h2)

theorem firstDotMatch_isSubstr {line v a : Str} (h : firstDotMatch line = some (v, a)) :
    isSubstr (v ++ '.' :: a) line = true := by
  simpa using fdmAux_isSubstr line [] v a h

/-! ### Index views of list membership -/

theorem getD_of_getElem? : ∀ {l : List Str} {j : Nat} {x : Str},
    l[j]? = some x → l.getD j [] = x := by
  intro l
  induction l with
  | nil => intro j x h; simp at h
  | cons y ys ih =>
    intro j x h
    cases j with
    | zero =>
      simp only [List.getElem?_cons_zero, Option.some.injEq] at h
      simpa using h
    | succ m =>
      simp only [List.getElem?_cons_succ] at h
      simpa [List.getD_cons_succ] using ih h

theorem mem_take_idx : ∀ {l : List Str} {n : Nat} {x : Str}, x ∈ l.take n →
    ∃ j, j < n ∧ l.getD j [] = x := by
  intro l
  induction l with
  | nil => intro n x h; simp at h
  | cons y ys ih =>
    intro n x h
    cases n with
    | zero => simp at h
    | succ m =>
      simp only [List.take_succ_cons, List.mem_cons] at h
      rcases h with rfl | h
      · exact ⟨0, by omega, rfl⟩
      · obtain ⟨j, hj, hx⟩ := ih h
        refine ⟨j + 1, by omega, ?_⟩
        simpa [List.getD_cons_succ] using hx

/-- C7: a possible-null-attribute-access diagnostic is produced for a line
only if that line contains a `name.attr` occurrence — the diagnostic is
keyed to the first such occurrence — and some strictly earlier line of the
input contains the literal substring `name = None`. -/
theorem C7_attr_requires_none_assignment (code : Str) (ctx : Context) (e : Err)
    (he : e ∈ detect_errors_with_context code ctx)
    (ht : e.type = ("AttributeError".data)) :
    ∃ v a, firstDotMatch ((splitNL code).getD e.line []) = some (v, a) ∧
      isSubstr (v ++ '.' :: a) ((splitNL code).getD e.line []) = true ∧
      (∃ j, j < e.line ∧
        isSubstr (v ++ (" = None".data)) ((splitNL code).getD j []) = true) ∧
      e.fix = some (FixK.wrap_with_check e.line v ((splitNL code).getD e.line [])) := by
  obtain ⟨j, l, hjl, hmem⟩ := mem_detectGo.mp he
  rw [Nat.zero_add] at hmem
  obtain ⟨v, a, hdot, hany, hrec⟩ := detectLine_ae_char hmem ht
  subst hrec
  have hgetd : (splitNL code).getD (aeRecord j l v).line [] = l :=
    getD_of_getElem? hjl
  rw [hgetd]
  refine ⟨v, a, hdot, firstDotMatch_isSubstr hdot, ?_, rfl⟩
  obtain ⟨pl, hpl, hsub⟩ := List.any_eq_true.mp hany
  obtain ⟨j', hj', hgd⟩ := mem_take_idx hpl
  exact ⟨j', hj', by rw [hgd]; exact hsub⟩

/-- Witness for C7 at the input `"data = None\nresult = data.process()"`,
whose line 1 carries the null-attribute diagnostic for `data`. -/
theorem C7_attr_requires_none_assignment_witness :
    ∃ v a,
      firstDotMatch ((splitNL ("data = None\nresult = data.process()".data)).getD 1 []) =
        some (v, a) ∧
      isSubstr (v ++ '.' :: a)
        ((splitNL ("data = None\nresult = data.process()".data)).getD 1 []) = true ∧
      (∃ j, j < 1 ∧
        isSubstr (v ++ (" = None".data))
          ((splitNL ("data = None\nresult = data.process()".data)).getD j []) = true) ∧
      (aeRecord 1 ("result = data.process()".data) ("data".data)).fix =
        some (FixK.wrap_with_check 1 v
          ((splitNL ("data = None\nresult = data.process()".data)).getD 1 [])) :=
  C7_attr_requires_none_assignment ("data = None\nresult = data.process()".data)
    (analyze_code_context ("data = None\nresult = data.process()".data))
    (aeRecord 1 ("result = data.process()".data) ("data".data)) (by decide) rfl

/-- C9: for every line of every input, the scanner produces at most one
possible-null-attribute-access diagnostic, and such a diagnostic at line
`i` is keyed to the receiver of the first `name.attr` occurrence on that
line. -/
theorem C9_one_attr_per_line (code : Str) (ctx : Context) (i : Nat) :
    ((detect_errors_with_context code ctx).countP
        (fun e => decide (e.type = ("AttributeError".data)) && decide (e.line = i)) ≤ 1) ∧
    (∀ e ∈ detect_errors_with_context code ctx,
        e.type = ("AttributeError".data) → e.line = i →
        ∃ line v a, (splitNL code)[i]? = some line ∧
          firstDotMatch line = some (v, a) ∧ e = aeRecord i line v) := by
  constructor
  · exact countP_detectGo_le_one _ _ _ i
      (fun e hp => by
        simp only [Bool.and_eq_true, decide_eq_true_eq] at hp
        exact hp.2)
      (fun j l => countP_detectLine_ae_le_one _ _ _ _ _
        (fun e hp => by
          simp only [Bool.and_eq_true, decide_eq_true_eq] at hp
          exact hp.1))
      _ 0
  · intro e he ht hl
    obtain ⟨j, l, hjl, hmem⟩ := mem_detectGo.mp he
    rw [Nat.zero_add] at hmem
    obtain ⟨v, a, hdot, -, hrec⟩ := detectLine_ae_char hmem ht
    have hline := detectLine_line_eq hmem
    have hji : j = i := by omega
    subst hji
    exact ⟨l, v, a, hjl, hdot, hrec⟩

/-- Witness for C9 at an input whose third line carries two dotted
accesses with None-assigned receivers: one diagnostic, for the first. -/
theorem C9_one_attr_per_line_witness :
    ((detect_errors_with_context ("a = None\nb = None\nx = a.f + b.g".data)
        (analyze_code_context ("a = None\nb = None\nx = a.f + b.g".data))).countP
      (fun e => decide (e.type = ("AttributeError".data)) && decide (e.line = 2)) ≤ 1) ∧
    (∃ line v a,
      (splitNL ("a = None\nb = None\nx = a.f + b.g".data))[2]? = some line ∧
      firstDotMatch line = some (v, a) ∧
      aeRecord 2 ("x = a.f + b.g".data) ("a".data) = aeRecord 2 line v) := by
  constructor
  · exact (C9_one_attr_per_line ("a = None\nb = None\nx = a.f + b.g".data) _ 2).1
  · exact (C9_one_attr_per_line ("a = None\nb = None\nx = a.f + b.g".data)
      (analyze_code_context ("a = None\nb = None\nx = a.f + b.g".data)) 2).2
      (aeRecord 2 ("x = a.f + b.g".data) ("a".data)) (by decide) (by decide) (by decide)

/-! ### The context builder adds every recognized binder -/

theorem mem_addVar_of_mem {x y : Str} {l : List Str} (h : x ∈ l) : x ∈ addVar y l := by
  unfold addVar
  split
  · exact h
  · exact List.mem_cons_of_mem _ h

theorem mem_addVar_self (y : Str) (l : List Str) : y ∈ addVar y l := by
  unfold addVar
  split
  · assumption
  · exact List.mem_cons_self _ _

theorem mem_foldl_addVar_of_mem {x : Str} : ∀ (ts dv : List Str),
    x ∈ dv → x ∈ ts.foldl (fun acc t => addVar t acc) dv := by
  intro ts
  induction ts with
  | nil => intro dv h; exact h
  | cons t ts' ih => intro dv h; exact ih _ (mem_addVar_of_mem h)

theorem mem_foldl_addVar_of_elem {x : Str} : ∀ (ts dv : List Str),
    x ∈ ts → x ∈ ts.foldl (fun acc t => addVar t acc) dv := by
  intro ts
  induction ts with
  | nil => intro dv h; simp at h
  | cons t ts' ih =>
    intro dv h
    rcases List.mem_cons.mp h with rfl | h
    · exact mem_foldl_addVar_of_mem ts' (addVar x dv) (mem_addVar_self _ _)
    · exact ih _ h

theorem mem_foldl_condAddVar_of_mem {x : Str} : ∀ (ts dv : List Str),
    x ∈ dv →
    x ∈ ts.foldl (fun dv' v => if !v.isEmpty && isPyIdent v then addVar v dv' else dv') dv := by
  intro ts
  induction ts with
  | nil => intro dv h; exact h
  | cons t ts' ih =>
    intro dv h
    refine ih _ ?_
    show x ∈ if (!t.isEmpty && isPyIdent t) = true then addVar t dv else dv
    split
    · exact mem_addVar_of_mem h
    · exact h

theorem applyImportRec_mono {x : Str} (i : Nat) (s : Str) (ctx : Context)
    (h : inCtxSets ctx x) : inCtxSets (applyImportRec i s ctx) x := by
  unfold applyImportRec
  split
  · rcases h with h | h | h | h
    · exact Or.inl h
    · exact Or.inr (Or.inl (mem_addVar_of_mem h))
    · exact Or.inr (Or.inr (Or.inl h))
    · exact Or.inr (Or.inr (Or.inr h))
  · exact h

theorem applyFromImportRec_mono {x : Str} (s : Str) (ctx : Context)
    (h : inCtxSets ctx x) : inCtxSets (applyFromImportRec s ctx) x := by
  unfold applyFromImportRec
  split
  · rcases h with h | h | h | h
    · exact Or.inl (mem_foldl_addVar_of_mem _ _ h)
    · exact Or.inr (Or.inl (mem_addVar_of_mem h))
    · exact Or.inr (Or.inr (Or.inl h))
    · exact Or.inr (Or.inr (Or.inr h))
  · exact h

theorem applyFuncRec_mono {x : Str} (s : Str) (ctx : Context)
    (h : inCtxSets ctx x) : inCtxSets (applyFuncRec s ctx) x := by
  unfold applyFuncRec
  split
  · split
    · rcases h with h | h | h | h
      · exact Or.inl (mem_addVar_of_mem h)
      · exact Or.inr (Or.inl h)
      · exact Or.inr (Or.inr (Or.inl (mem_addVar_of_mem h)))
      · exact Or.inr (Or.inr (Or.inr h))
    · rcases h with h | h | h | h
      · exact Or.inl (mem_foldl_addVar_of_mem _ _ (mem_addVar_of_mem h))
      · exact Or.inr (Or.inl h)
      · exact Or.inr (Or.inr (Or.inl (mem_addVar_of_mem h)))
      · exact Or.inr (Or.inr (Or.inr h))
  · exact h

theorem applyClassRec_mono {x : Str} (s : Str) (ctx : Context)
    (h : inCtxSets ctx x) : inCtxSets (applyClassRec s ctx) x := by
  unfold applyClassRec
  split
  · rcases h with h | h | h | h
    · exact Or.inl (mem_addVar_of_mem h)
    · exact Or.inr (Or.inl h)
    · exact Or.inr (Or.inr (Or.inl h))
    · exact Or.inr (Or.inr (Or.inr (mem_addVar_of_mem h)))
  · exact h

theorem applyForRec_mono {x : Str} (i : Nat) (s : Str) (ctx : Context)
    (h : inCtxSets ctx x) : inCtxSets (applyForRec i s ctx) x := by
  unfold applyForRec
  split
  · rcases h with h | h | h | h
    · exact Or.inl (mem_addVar_of_mem h)
    · exact Or.inr (Or.inl h)
    · exact Or.inr (Or.inr (Or.inl h))
    · exact Or.inr (Or.inr (Or.inr h))
  · exact h

theorem applyAssignRec_mono {x : Str} (s : Str) (ctx : Context)
    (h : inCtxSets ctx x) : inCtxSets (applyAssignRec s ctx) x := by
  unfold applyAssignRec
  split
  · rcases h with h | h | h | h
    · exact Or.inl (mem_addVar_of_mem h)
    · exact Or.inr (Or.inl h)
    · exact Or.inr (Or.inr (Or.inl h))
    · exact Or.inr (Or.inr (Or.inr h))
  · exact h

theorem applyMultiRec_mono {x : Str} (s : Str) (ctx : Context)
    (h : inCtxSets ctx x) : inCtxSets (applyMultiRec s ctx) x := by
  unfold applyMultiRec
  split
  · split
    · rcases h with h | h | h | h
      · exact Or.inl (mem_foldl_condAddVar_of_mem _ _ h)
      · exact Or.inr (Or.inl h)
      · exact Or.inr (Or.inr (Or.inl h))
      · exact Or.inr (Or.inr (Or.inr h))
    · exact h
  · exact h

theorem buildLine_mono {x : Str} (ctx : Context) (i : Nat) (line : Str)
    (h : inCtxSets ctx x) : inCtxSets (buildLine ctx i line) x := by
  unfold buildLine
  split
  · exact h
  · exact applyMultiRec_mono _ _ (applyAssignRec_mono _ _ (applyForRec_mono _ _ _
      (applyClassRec_mono _ _ (applyFuncRec_mono _ _
        (applyFromImportRec_mono _ _ (applyImportRec_mono _ _ _ h))))))

theorem applyImportRec_adds {s x : Str} (i : Nat) (ctx : Context)
    (h : matchImport s = some x) : x ∈ (applyImportRec i s ctx).imported_modules := by
  unfold applyImportRec
  split
  · next m heq =>
    rw [h] at heq
    injection heq with heq
    subst heq
    exact mem_addVar_self _ _
  · next heq =>
    rw [h] at heq
    exact Option.noConfusion heq

theorem applyFromImportRec_adds {s m rest x : Str} (ctx : Context)
    (heq : matchFromImport s = some (m, rest))
    (hx : x ∈ (splitOnChar ',' rest).map pyStrip) :
    x ∈ (applyFromImportRec s ctx).defined_vars := by
  unfold applyFromImportRec
  split
  · next m' rest' heq' =>
    rw [heq] at heq'
    injection heq' with heq'
    injection heq' with h1 h2
    subst h1
    subst h2
    exact mem_foldl_addVar_of_elem _ _ hx
  · next heq' =>
    rw [heq] at heq'
    exact Option.noConfusion heq'

theorem applyFuncRec_adds_name {s x ps : Str} (ctx : Context)
    (heq : matchFunc s = some (x, ps)) :
    x ∈ (applyFuncRec s ctx).defined_vars := by
  unfold applyFuncRec
  split
  · next n' ps' heq' =>
    rw [heq] at heq'
    injection heq' with heq'
    injection heq' with h1 h2
    subst h1
    subst h2
    split
    · exact mem_addVar_self _ _
    · exact mem_foldl_addVar_of_mem _ _ (mem_addVar_self _ _)
  · next heq' =>
    rw [heq] at heq'
    exact Option.noConfusion heq'

theorem applyFuncRec_adds_param {s n x ps : Str} (ctx : Context)
    (heq : matchFunc s = some (n, ps)) (hx : x ∈ processParams ps) :
    x ∈ (applyFuncRec s ctx).defined_vars := by
  unfold applyFuncRec
  split
  · next n' ps' heq' =>
    rw [heq] at heq'
    injection heq' with heq'
    injection heq' with h1 h2
    subst h1
    subst h2
    split
    · next hemp =>
      exfalso
      rw [List.isEmpty_iff] at hemp
      subst hemp
      have hpp : processParams ([] : Str) = [] := rfl
      rw [hpp] at hx
      simp at hx
    · exact mem_foldl_addVar_of_elem _ _ hx
  · next heq' =>
    rw [heq] at heq'
    exact Option.noConfusion heq'

theorem applyClassRec_adds {s x : Str} (ctx : Context)
    (heq : matchClass s = some x) : x ∈ (applyClassRec s ctx).defined_vars := by
  unfold applyClassRec
  split
  · next m heq' =>
    rw [heq] at heq'
    injection heq' with heq'
    subst heq'
    exact mem_addVar_self _ _
  · next heq' =>
    rw [heq] at heq'
    exact Option.noConfusion heq'

theorem applyForRec_adds {s x : Str} (i : Nat) (ctx : Context)
    (heq : matchFor s = some x) : x ∈ (applyForRec i s ctx).defined_vars := by
  unfold applyForRec
  split
  · next m heq' =>
    rw [heq] at heq'
    injection heq' with heq'
    subst heq'
    exact mem_addVar_self _ _
  · next heq' =>
    rw [heq] at heq'
    exact Option.noConfusion heq'

theorem applyAssignRec_adds {s x : Str} (ctx : Context)
    (heq : matchAssign s = some x) : x ∈ (applyAssignRec s ctx).defined_vars := by
  unfold applyAssignRec
  split
  · next m heq' =>
    rw [heq] at heq'
    injection heq' with heq'
    subst heq'
    exact mem_addVar_self _ _
  · next heq' =>
    rw [heq] at heq'
    exact Option.noConfusion heq'

theorem inCtxSets_buildLine_of_binds {line x : Str} (ctx : Context) (i : Nat)
    (h : bindsName line x = true) : inCtxSets (buildLine ctx i line) x := by
  unfold bindsName at h
  rw [Bool.and_eq_true] at h
  obtain ⟨hskip, hb⟩ := h
  unfold buildLine
  rw [if_neg (by simpa using hskip)]
  simp only [Bool.or_eq_true, decide_eq_true_eq] at hb
  rcases hb with ((((himp | hfrom) | hfun) | hcls) | hfor) | hassign
  · refine applyMultiRec_mono _ _ (applyAssignRec_mono _ _ (applyForRec_mono _ _ _
      (applyClassRec_mono _ _ (applyFuncRec_mono _ _ (applyFromImportRec_mono _ _ ?_)))))
    exact Or.inr (Or.inl (applyImportRec_adds _ _ himp))
  · split at hfrom
    · next m rest heq =>
      refine applyMultiRec_mono _ _ (applyAssignRec_mono _ _ (applyForRec_mono _ _ _
        (applyClassRec_mono _ _ (applyFuncRec_mono _ _ ?_))))
      exact Or.inl (applyFromImportRec_adds _ heq (of_decide_eq_true hfrom))
    · exact absurd hfrom (by simp)
  · split at hfun
    · next n ps heq =>
      rw [Bool.or_eq_true, decide_eq_true_eq, decide_eq_true_eq] at hfun
      refine applyMultiRec_mono _ _ (applyAssignRec_mono _ _ (applyForRec_mono _ _ _
        (applyClassRec_mono _ _ ?_)))
      rcases hfun with rfl | hp
      · exact Or.inl (applyFuncRec_adds_name _ heq)
      · exact Or.inl (applyFuncRec_adds_param _ heq hp)
    · exact absurd hfun (by simp)
  · refine applyMultiRec_mono _ _ (applyAssignRec_mono _ _ (applyForRec_mono _ _ _ ?_))
    exact Or.inl (applyClassRec_adds _ hcls)
  · refine applyMultiRec_mono _ _ (applyAssignRec_mono _ _ ?_)
    exact Or.inl (applyForRec_adds _ _ hfor)
  · refine applyMultiRec_mono _ _ ?_
    exact Or.inl (applyAssignRec_adds _ hassign)

theorem inCtxSets_buildGo_mono {x : Str} : ∀ (ls : List Str) (n : Nat) (ctx : Context),
    inCtxSets ctx x → inCtxSets (buildGo ctx n ls) x := by
  intro ls
  induction ls with
  | nil => intro n ctx h; exact h
  | cons l ls' ih => intro n ctx h; exact ih _ _ (buildLine_mono _ _ _ h)

theorem inCtxSets_buildGo_of_binds {x : Str} : ∀ (ls : List Str) (n : Nat)
    (ctx : Context) (j : Nat) (line : Str), ls[j]? = some line →
    bindsName line x = true → inCtxSets (buildGo ctx n ls) x := by
  intro ls
  induction ls with
  | nil => intro n ctx j line h _; simp at h
  | cons l ls' ih =>
    intro n ctx j line hjl hb
    cases j with
    | zero =>
      simp only [List.getElem?_cons_zero, Option.some.injEq] at hjl
      subst hjl
      exact inCtxSets_buildGo_mono ls' (n + 1) (buildLine ctx n l)
        (inCtxSets_buildLine_of_binds ctx n hb)
    | succ m =>
      simp only [List.getElem?_cons_succ] at hjl
      exact ih _ _ _ _ hjl hb

theorem tokSkip_of_inCtxSets {ctx : Context} {x : Str} (line stripped : Str)
    (h : inCtxSets ctx x) : tokSkip ctx line stripped x = true := by
  unfold tokSkip
  simp only [Bool.or_eq_true, decide_eq_true_eq]
  rcases h with h | h | h | h <;> tauto

/-- C4 counterexample: on `"def f(self):\n    x = self"`, the identifier
`self` is bound as a parameter on line 0 (in the claim's sense of the
parameter list, which the builder however discards for the literal
`self`), yet the scanner flags `self` as a possible-undefined-name
diagnostic on the later line 1. -/
theorem C4_counterexample :
    ("self".data) ∈ specParamNames ("def f(self):".data) ∧
    neRecord 1 ("    x = self".data) ("self".data) ∈
      detect_errors_with_context ("def f(self):\n    x = self".data)
        (analyze_code_context ("def f(self):\n    x = self".data)) ∧
    (neRecord 1 ("    x = self".data) ("self".data)).type = ("NameError".data) ∧
    0 < (neRecord 1 ("    x = self".data) ("self".data)).line :=
  ⟨by decide, by decide, rfl, by decide⟩

/-- C4 amended: any identifier textually assigned, imported, or bound as a
loop variable, a parameter other than the literal `self`, a class name, or
a function name on some line of the input never appears as a
possible-undefined-name diagnostic on any line (in particular any later
line) when the scanner runs with the context built from that input. -/
theorem C4_bound_name_never_flagged (code : Str) (x : Str) (i : Nat) (line : Str)
    (hl : (splitNL code)[i]? = some line) (hb : bindsName line x = true) :
    ∀ e ∈ detect_errors_with_context code (analyze_code_context code),
      e.type = ("NameError".data) →
      e.fix ≠ some (FixK.define_variable e.line x) := by
  intro e he ht hfix
  have hctx : inCtxSets (analyze_code_context code) x := by
    unfold analyze_code_context
    exact inCtxSets_buildGo_of_binds _ 0 {} i line hl hb
  obtain ⟨j, l, hjl, hmem⟩ := mem_detectGo.mp he
  rw [Nat.zero_add] at hmem
  obtain ⟨-, v, hfu, hrec⟩ := detectLine_ne_char hmem ht
  have hv := firstUndef_skip_false hfu
  subst hrec
  have hvx : v = x := by simpa [neRecord] using hfix
  rw [hvx] at hv
  rw [tokSkip_of_inCtxSets l (pyStrip l) hctx] at hv
  exact Bool.noConfusion hv

/-- Witness for C4 amended: `y` is assigned on line 0 of
`"y = 1\nz = qqq"`, the sole undefined-name diagnostic is for `qqq`, and
by the theorem it is not a diagnostic for `y`. -/
theorem C4_bound_name_never_flagged_witness :
    bindsName ("y = 1".data) ("y".data) = true ∧
    neRecord 1 ("z = qqq".data) ("qqq".data) ∈
      detect_errors_with_context ("y = 1\nz = qqq".data)
        (analyze_code_context ("y = 1\nz = qqq".data)) ∧
    (neRecord 1 ("z = qqq".data) ("qqq".data)).fix ≠
      some (FixK.define_variable (neRecord 1 ("z = qqq".data) ("qqq".data)).line
        ("y".data)) := by
  refine ⟨by decide, by decide, ?_⟩
  exact C4_bound_name_never_flagged ("y = 1\nz = qqq".data) ("y".data) 0
    ("y = 1".data) (by decide) (by decide) _ (by decide) rfl

/-! ### `function_params` never records the literal `self` -/

theorem function_params_applyImportRec (i : Nat) (s : Str) (ctx : Context) :
    (applyImportRec i s ctx).function_params = ctx.function_params := by
  unfold applyImportRec
  split <;> rfl

theorem function_params_applyFromImportRec (s : Str) (ctx : Context) :
    (applyFromImportRec s ctx).function_params = ctx.function_params := by
  unfold applyFromImportRec
  split <;> rfl

theorem function_params_applyClassRec (s : Str) (ctx : Context) :
    (applyClassRec s ctx).function_params = ctx.function_params := by
  unfold applyClassRec
  split <;> rfl

theorem function_params_applyForRec (i : Nat) (s : Str) (ctx : Context) :
    (applyForRec i s ctx).function_params = ctx.function_params := by
  unfold applyForRec
  split <;> rfl

theorem function_params_applyAssignRec (s : Str) (ctx : Context) :
    (applyAssignRec s ctx).function_params = ctx.function_params := by
  unfold applyAssignRec
  split <;> rfl

theorem function_params_applyMultiRec (s : Str) (ctx : Context) :
    (applyMultiRec s ctx).function_params = ctx.function_params := by
  unfold applyMultiRec
  split
  · split <;> rfl
  · rfl

theorem function_params_applyFuncRec (s : Str) (ctx : Context) :
    ∀ pr ∈ (applyFuncRec s ctx).function_params,
      pr ∈ ctx.function_params ∨ ("self".data) ∉ pr.2 := by
  intro pr hpr
  unfold applyFuncRec at hpr
  split at hpr
  · split at hpr
    · exact Or.inl hpr
    · rcases List.mem_cons.mp hpr with rfl | h
      · right
        intro hself
        unfold processParams at hself
        have h2 := (List.mem_filter.mp hself).2
        simp at h2
      · exact Or.inl h
  · exact Or.inl hpr

theorem function_params_buildLine (ctx : Context) (i : Nat) (line : Str) :
    ∀ pr ∈ (buildLine ctx i line).function_params,
      pr ∈ ctx.function_params ∨ ("self".data) ∉ pr.2 := by
  intro pr hpr
  unfold buildLine at hpr
  split at hpr
  · exact Or.inl hpr
  · rw [function_params_applyMultiRec, function_params_applyAssignRec,
        function_params_applyForRec, function_params_applyClassRec] at hpr
    rcases function_params_applyFuncRec _ _ pr hpr with h | h
    · rw [function_params_applyFromImportRec, function_params_applyImportRec] at h
      exact Or.inl h
    · exact Or.inr h

theorem function_params_buildGo : ∀ (ls : List Str) (n : Nat) (ctx : Context),
    (∀ pr ∈ ctx.function_params, ("self".data) ∉ pr.2) →
    ∀ pr ∈ (buildGo ctx n ls).function_params, ("self".data) ∉ pr.2 := by
  intro ls
  induction ls with
  | nil => intro n ctx h; exact h
  | cons l ls' ih =>
    intro n ctx h
    refine ih _ _ (fun pr hpr => ?_)
    rcases function_params_buildLine ctx n l pr hpr with h' | h'
    · exact h pr h'
    · exact h'

/-- C3 counterexample: for `"def f(cls):"` the recorded parameter list of
`f` is `["cls"]` — the literal `cls` is not excluded (and it is added to
`defined_vars`), contradicting the claim that both `self` and `cls` are
excluded. -/
theorem C3_counterexample :
    lookupParams (analyze_code_context ("def f(cls):".data)) ("f".data) =
      some [("cls".data)] ∧
    ("cls".data) ∈ (analyze_code_context ("def f(cls):".data)).defined_vars :=
  ⟨by decide, by decide⟩

/-- C3 amended: every parameter list recorded in `function_params` (and
hence every name added to `defined_vars` from a parameter list) excludes
the literal parameter name `self`; `cls` is not excluded. -/
theorem C3_params_exclude_self (code : Str) (f : Str) (ps : List Str)
    (h : lookupParams (analyze_code_context code) f = some ps) :
    ("self".data) ∉ ps := by
  unfold lookupParams at h
  rcases hf : (analyze_code_context code).function_params.find?
      (fun pr => decide (pr.1 = f)) with _ | pr
  · rw [hf] at h
    simp at h
  · rw [hf] at h
    simp only [Option.map_some', Option.some.injEq] at h
    have hmem := List.mem_of_find?_eq_some hf
    have hinv := function_params_buildGo (splitNL code) 0 {} (by simp) pr hmem
    rw [← h]
    exact hinv

/-- Witness for C3 amended at `"def g(self, cls, x=1):"`: the recorded
list is `["cls", "x"]` and `self` is not in it. -/
theorem C3_params_exclude_self_witness :
    lookupParams (analyze_code_context ("def g(self, cls, x=1):".data)) ("g".data) =
      some [("cls".data), ("x".data)] ∧
    ("self".data) ∉ [("cls".data), ("x".data)] := by
  refine ⟨by decide, ?_⟩
  exact C3_params_exclude_self ("def g(self, cls, x=1):".data) ("g".data) _ (by decide)

/-- C2 counterexample: scanning the single-line input `"import pandas"`
yields two diagnostics, not exactly one — besides the unresolved-module
diagnostic, the keyword token `import` itself survives every skip
condition of the undefined-name detector. -/
theorem C2_counterexample :
    (detect_errors_with_context ("import pandas".data)
      (analyze_code_context ("import pandas".data))).length = 2 := by
  decide

/-- C2 amended: scanning `"import pandas"` yields exactly the
unresolved-module diagnostic and a possible-undefined-name diagnostic for
the token `import`; applying the fixes replaces line 0 with
`"import pandas  # Run: pip install pandas"` and additionally inserts
`"import = None  # TODO: Initialize this variable"` at the top, giving a
two-line result. -/
theorem C2_amended :
    detect_errors_with_context ("import pandas".data)
        (analyze_code_context ("import pandas".data)) =
      [mnfRecord 0 ("import pandas".data) 0 ("pandas".data),
       neRecord 0 ("import pandas".data) ("import".data)] ∧
    apply_smart_fixes ("import pandas".data)
        (detect_errors_with_context ("import pandas".data)
          (analyze_code_context ("import pandas".data)))
        (analyze_code_context ("import pandas".data)) =
      (("import = None  # TODO: Initialize this variable\nimport pandas  # Run: pip install pandas").data) :=
  ⟨by decide, by decide⟩

/-- Witness for C1 amended: the sorted order and the take-preservation at
a concrete state and diagnostic. -/
theorem C1_amended_witness :
    (sortByLineDesc
        [{ type := ("T".data), message := [], line := 1, column := 0,
           prevention := [], fix := some (FixK.add_comment 1 ("z".data)) }]).Pairwise
      (fun a b => b.line ≤ a.line) ∧
    (applyFixStep {}
        { lines := [("a".data), ("b".data)], added_imports := [], defined_vars := [] }
        { type := ("T".data), message := [], line := 1, column := 0,
          prevention := [], fix := some (FixK.add_comment 1 ("z".data)) }).lines.take 1 =
      ([("a".data), ("b".data)] : List Str).take 1 := by
  refine ⟨C1_amended.1 _, ?_⟩
  exact C1_amended.2 {}
    { lines := [("a".data), ("b".data)], added_imports := [], defined_vars := [] }
    { type := ("T".data), message := [], line := 1, column := 0,
      prevention := [], fix := some (FixK.add_comment 1 ("z".data)) }
    (by decide) (Or.inl ⟨1, ("z".data), rfl⟩)

end TalonApi

